import Mathlib

/-
Verification development for the texture-space decal compositing engine
(materials_logo.js and materials_baked.js).  JavaScript numbers are embedded
as exact rationals (ℚ), pixel/byte values as rationals restricted to
[0, 255], array indices and identities as naturals, and JavaScript's NaN
poisoning of arithmetic on out-of-range typed-array reads as `Option ℚ`
(with `none` playing the role of NaN).  Object identity (materials,
textures, images) is embedded as natural-number ids; heap mutation is
embedded as explicit state passing.
-/

/-- JavaScript `Math.round`: round half toward positive infinity,
`Math.round x = ⌊x + 1/2⌋`. -/
def jsRound (q : ℚ) : ℤ := ⌊q + 1/2⌋

/-- The `clamp01` helper of `composeLogoIntoOriginalTexture`
(materials_logo.js line 178): clamp a number into [0, 1]. -/
def clamp01 (x : ℚ) : ℚ := max 0 (min 1 x)

/-- UV bounds as returned by the bounds resolvers:
`{ minU, minV, maxU, maxV }`. -/
structure UVBounds where
  minU : ℚ
  minV : ℚ
  maxU : ℚ
  maxV : ℚ
deriving DecidableEq

/-- The `vToY` helper (materials_logo.js lines 182, 253, 388): convert a V
texture coordinate to an image row.  The row is inverted
(`row = round((1-v)*H)`) unless the texture's `flipY` flag is explicitly
`false` (the JavaScript test is `flipY === false`, so an absent flag also
inverts). -/
def vToY (flipY : Option Bool) (v : ℚ) (h : ℚ) : ℤ :=
  if flipY = some false then jsRound (v * h) else jsRound ((1 - v) * h)

/-- The UV-rectangle-to-pixel-rectangle conversion of
`composeLogoIntoOriginalTexture` (materials_logo.js lines 178-199): clamp
the bounds into [0,1], convert V to rows via `vToY`, enforce a minimum
8×8 rectangle and clamp it inside the image.  Returns
`(safeRectX, safeRectY, safeRectW, safeRectH)`. -/
def pixelRectOfBounds (b : UVBounds) (width height : ℕ) (flipY : Option Bool) :
    ℤ × ℤ × ℤ × ℤ :=
  let minU := clamp01 b.minU
  let minV := clamp01 b.minV
  let maxU := clamp01 b.maxU
  let maxV := clamp01 b.maxV
  let y1 := vToY flipY minV (height : ℚ)
  let y2 := vToY flipY maxV (height : ℚ)
  let rectX := jsRound (minU * (width : ℚ))
  let rectY := min y1 y2
  let rectW := max 1 (jsRound ((maxU - minU) * (width : ℚ)))
  let rectH := max 1 |y2 - y1|
  let safeRectW := max 8 rectW
  let safeRectH := max 8 rectH
  let safeRectX := max 0 (min ((width : ℤ) - safeRectW) rectX)
  let safeRectY := max 0 (min ((height : ℤ) - safeRectH) rectY)
  (safeRectX, safeRectY, safeRectW, safeRectH)

/-- Projected pixel width of raw UV bounds on an atlas of width `texW`
(materials_logo.js line 366): `Math.round(|maxU - minU| * texW)`, `0` when
the bounds are `null`. -/
def islandPxW (rawUv : Option UVBounds) (texW : ℚ) : ℤ :=
  match rawUv with
  | some b => jsRound (|b.maxU - b.minU| * texW)
  | none => 0

/-- Projected pixel height of raw UV bounds on an atlas of height `texH`
(materials_logo.js line 367). -/
def islandPxH (rawUv : Option UVBounds) (texH : ℚ) : ℤ :=
  match rawUv with
  | some b => jsRound (|b.maxV - b.minV| * texH)
  | none => 0

/-- The tiny-island strategy selection of `replaceMaterial003BaseMap`
(materials_logo.js lines 364-375): start from the raw-bounds test
`islandPxW * islandPxH > 0 && (islandPxW < 64 || islandPxH < 64)`, then
additionally force the tiny-island path when the transformed bounds project
to a nonzero rectangle with either dimension below 96 px. -/
def tinyIslandSelect (rawUv boundsTransformed : Option UVBounds)
    (texW texH : ℚ) : Bool :=
  let w := islandPxW rawUv texW
  let h := islandPxH rawUv texH
  let t0 := decide (w * h > 0) && (decide (w < 64) || decide (h < 64))
  match boundsTransformed with
  | some b =>
    let bw := jsRound (|b.maxU - b.minU| * texW)
    let bh := jsRound (|b.maxV - b.minV| * texH)
    if decide (bw > 0) && decide (bh > 0) && (decide (bw < 96) || decide (bh < 96)) then
      true
    else t0
  | none => t0

/-- Tiny-island test on the raw bounds alone with the 64 px threshold, as
the specification describes the selection. -/
def rawBoundsTiny (rawUv : Option UVBounds) (texW texH : ℚ) : Bool :=
  let w := islandPxW rawUv texW
  let h := islandPxH rawUv texH
  decide (w * h > 0) && (decide (w < 64) || decide (h < 64))

/-- The additional transformed-bounds test with the 96 px threshold that the
code applies on top of the raw test. -/
def transformedBoundsTiny (boundsTransformed : Option UVBounds)
    (texW texH : ℚ) : Bool :=
  match boundsTransformed with
  | some b =>
    let bw := jsRound (|b.maxU - b.minU| * texW)
    let bh := jsRound (|b.maxV - b.minV| * texH)
    decide (bw > 0) && decide (bh > 0) && (decide (bw < 96) || decide (bh < 96))
  | none => false

/-- C6: Coordinate conversion scenario.  UV bounds
`{minU: 0.2, minV: 0.1, maxU: 0.4, maxV: 0.3}` on a 1000×1000 image with
`flipY = true` convert to the pixel rectangle `x = 200, y = 700, w = 200,
h = 200`; in general the V axis is inverted as `row = round((1-v)*H)`
unless `flipY` is explicitly `false`, in which case `row = round(v*H)`. -/
theorem pixelRect_coordinate_scenario :
    pixelRectOfBounds ⟨1/5, 1/10, 2/5, 3/10⟩ 1000 1000 (some true) =
      (200, 700, 200, 200) ∧
    (∀ (v h : ℚ), vToY (some true) v h = jsRound ((1 - v) * h) ∧
      vToY none v h = jsRound ((1 - v) * h) ∧
      vToY (some false) v h = jsRound (v * h)) := by
  constructor
  · norm_num [pixelRectOfBounds, clamp01, vToY, jsRound]
  · intro v h
    refine ⟨?_, ?_, ?_⟩ <;> simp [vToY]

/-- C2 counterexample: strategy selection is not a function of the raw
bounds with threshold 64 alone.  A region whose raw bounds project to
200×200 px on a 1024×1024 atlas (so neither raw dimension is below 64)
is still sent to the tiny-island path when its transformed bounds project
to 80×80 px, because the code also forces the tiny path below a 96 px
threshold on the transformed bounds. -/
theorem tinyIsland_rawOnly_counterexample :
    tinyIslandSelect (some ⟨0, 0, 200/1024, 200/1024⟩)
        (some ⟨0, 0, 80/1024, 80/1024⟩) 1024 1024 = true ∧
    rawBoundsTiny (some ⟨0, 0, 200/1024, 200/1024⟩) 1024 1024 = false := by
  constructor
  · norm_num [tinyIslandSelect, islandPxW, islandPxH, jsRound, abs_eq_max_neg,
      max_def]
  · norm_num [rawBoundsTiny, islandPxW, islandPxH, jsRound, abs_eq_max_neg,
      max_def]

/-- C2 amended: the tiny-island path is chosen exactly when the raw bounds
project (with nonzero area) to a dimension below 64 px, or the transformed
bounds project to nonzero dimensions with either below 96 px.  A region
projecting to 32×32 px raw (and transformed) on a 1024×1024 atlas selects
the tiny-island path, and one projecting to 200×200 px (raw and
transformed) selects the direct-atlas path. -/
theorem tinyIsland_selection_characterization :
    (∀ (rawUv boundsTransformed : Option UVBounds) (texW texH : ℚ),
      tinyIslandSelect rawUv boundsTransformed texW texH =
        (rawBoundsTiny rawUv texW texH ||
          transformedBoundsTiny boundsTransformed texW texH)) ∧
    tinyIslandSelect (some ⟨0, 0, 32/1024, 32/1024⟩)
        (some ⟨0, 0, 32/1024, 32/1024⟩) 1024 1024 = true ∧
    tinyIslandSelect (some ⟨0, 0, 200/1024, 200/1024⟩)
        (some ⟨0, 0, 200/1024, 200/1024⟩) 1024 1024 = false := by
  refine ⟨?_, ?_, ?_⟩
  · intro rawUv boundsTransformed texW texH
    cases boundsTransformed with
    | none => simp [tinyIslandSelect, rawBoundsTiny, transformedBoundsTiny]
    | some b =>
      simp only [tinyIslandSelect, rawBoundsTiny, transformedBoundsTiny]
      cases hc : (decide (jsRound (|b.maxU - b.minU| * texW) > 0) &&
          decide (jsRound (|b.maxV - b.minV| * texH) > 0) &&
          (decide (jsRound (|b.maxU - b.minU| * texW) < 96) ||
            decide (jsRound (|b.maxV - b.minV| * texH) < 96))) <;>
        simp [hc]
  · norm_num [tinyIslandSelect, islandPxW, islandPxH, jsRound, abs_eq_max_neg,
      max_def]
  · norm_num [tinyIslandSelect, islandPxW, islandPxH, jsRound, abs_eq_max_neg,
      max_def]

/-- A geometry group (`geom.groups` entry): `start`, `count` and an optional
`materialIndex` (`none` embeds a `materialIndex` that is not a number, which
the traversal does not filter on). -/
structure BufferGroup where
  start : ℕ
  count : ℕ
  materialIndex : Option ℕ
deriving DecidableEq

/-- A mesh geometry: the optional per-vertex `uv` attribute (a list of
`(u, v)` pairs), the optional triangle index buffer, and the material-slot
groups. -/
structure MeshGeometry where
  uv : Option (List (ℚ × ℚ))
  index : Option (List ℕ)
  groups : List BufferGroup
deriving DecidableEq

/-- A mesh as consumed by the UV bounds resolvers. -/
structure Mesh where
  geometry : MeshGeometry
deriving DecidableEq

/-- A texture's 2D sampling transform as read by
`computeUvBoundsForMaterial`.  `rotation` is in radians; because its cosine
and sine are not rational, the texture carries their values (`rotCos`,
`rotSin`) as data — the code only reads `Math.cos(rot)`/`Math.sin(rot)`
under the `if (rot)` guard, so they are irrelevant when `rotation = 0`. -/
structure TextureTransform where
  center : ℚ × ℚ
  rotation : ℚ
  rotCos : ℚ
  rotSin : ℚ
  repeatUV : ℚ × ℚ
  offset : ℚ × ℚ
deriving DecidableEq

/-- The `applyTransform` closure of `computeUvBoundsForMaterial`
(materials_logo.js lines 52-68): rotate about the texture center when the
rotation is nonzero, then scale by `repeat` and shift by `offset`. -/
def applyTransform (t : TextureTransform) (u v : ℚ) : ℚ × ℚ :=
  let p :=
    if t.rotation ≠ 0 then
      let x := u - t.center.1
      let y := v - t.center.2
      (x * t.rotCos - y * t.rotSin + t.center.1,
       x * t.rotSin + y * t.rotCos + t.center.2)
    else (u, v)
  (p.1 * t.repeatUV.1 + t.offset.1, p.2 * t.repeatUV.2 + t.offset.2)

/-- One traversal visit of the inner loop of the bounds resolvers
(materials_logo.js lines 77-86 and 104-112), for index positions
`g.start ≤ a < g.start + count`.  A skipped position (indexed geometry with
`index[a]` out of range, i.e. `vi == null`) produces no entry; a visited
position whose UV read is out of range (so the accumulators are not
updated, but `processed` is incremented) produces `some none`; a real
sample produces `some (some (u, v))`. -/
def groupVisits (geom : MeshGeometry) (uvList : List (ℚ × ℚ))
    (g : BufferGroup) : List (Option (ℚ × ℚ)) :=
  (List.range g.count).filterMap (fun k =>
    let a := g.start + k
    match geom.index with
    | some idx =>
      match idx.get? a with
      | none => none
      | some vi => some (uvList.get? vi)
    | none => some (uvList.get? a))

/-- The synthetic whole-buffer group used when the geometry has no groups
(materials_logo.js lines 72 and 99): `start 0`, `count` the index length
(or the UV attribute count for non-indexed geometry), and the requested
material index. -/
def fullBufferGroup (geom : MeshGeometry) (uvList : List (ℚ × ℚ))
    (materialIndex : ℕ) : BufferGroup :=
  ⟨0, (match geom.index with
       | some idx => idx.length
       | none => uvList.length), some materialIndex⟩

/-- Group filter of the traversal (materials_logo.js lines 74 and 101): a
group is skipped only when its `materialIndex` is a number different from
the requested slot. -/
def groupMatchesSlot (g : BufferGroup) (materialIndex : ℕ) : Bool :=
  match g.materialIndex with
  | some j => j == materialIndex
  | none => true

/-- The groups the traversal actually iterates for a slot: the geometry's
own groups when nonempty (filtered on `materialIndex`), otherwise the
synthetic whole-buffer group. -/
def slotGroups (geom : MeshGeometry) (uvList : List (ℚ × ℚ))
    (materialIndex : ℕ) : List BufferGroup :=
  (if geom.groups.isEmpty then [fullBufferGroup geom uvList materialIndex]
   else geom.groups).filter (fun g => groupMatchesSlot g materialIndex)

/-- Fold the visit list into min/max UV bounds (materials_logo.js lines
69-89 and 96-115): `none` when no position was processed or when every
processed position had an out-of-range UV read (the accumulators stay
infinite). -/
def boundsOfVisits (visits : List (Option (ℚ × ℚ))) : Option UVBounds :=
  if visits.isEmpty then none
  else
    match visits.filterMap id with
    | [] => none
    | s :: rest =>
      some ⟨rest.foldl (fun a p => min a p.1) s.1,
            rest.foldl (fun a p => min a p.2) s.2,
            rest.foldl (fun a p => max a p.1) s.1,
            rest.foldl (fun a p => max a p.2) s.2⟩

/-- `computeRawUvBoundsForMaterial` (materials_logo.js lines 92-116):
accumulate the raw min/max UV rectangle of the triangles whose group
matches the material slot. -/
def computeRawUvBoundsForMaterial (mesh : Mesh) (materialIndex : ℕ) :
    Option UVBounds :=
  match mesh.geometry.uv with
  | none => none
  | some uvList =>
    boundsOfVisits
      ((slotGroups mesh.geometry uvList materialIndex).flatMap
        (groupVisits mesh.geometry uvList))

/-- `computeUvBoundsForMaterial` (materials_logo.js lines 48-90): identical
traversal, but every UV sample passes through the texture transform before
accumulation. -/
def computeUvBoundsForMaterial (mesh : Mesh) (materialIndex : ℕ)
    (texture : TextureTransform) : Option UVBounds :=
  match mesh.geometry.uv with
  | none => none
  | some uvList =>
    boundsOfVisits
      (((slotGroups mesh.geometry uvList materialIndex).flatMap
          (groupVisits mesh.geometry uvList)).map
        (Option.map (fun p => applyTransform texture p.1 p.2)))

/-- A mesh whose geometry has one group tagged with material slot 0. -/
def groupedCexMesh : Mesh :=
  ⟨⟨some [(0, 0), (1, 1)], none, [⟨0, 2, some 0⟩]⟩⟩

/-- The identity texture transform (no rotation, unit repeat, zero
offset). -/
def identityTransform : TextureTransform :=
  ⟨(0, 0), 0, 1, 0, (1, 1), (0, 0)⟩

/-- C5 counterexample: on a mesh whose geometry has a group for slot 0
only, asking either bounds computation for slot 1 returns `none`: the
whole-buffer fallback is not taken (it would have produced the bounds
`{0, 0, 1, 1}` of the full mesh). -/
theorem uvBounds_noMatchingGroup_counterexample :
    computeRawUvBoundsForMaterial groupedCexMesh 1 = none ∧
    computeUvBoundsForMaterial groupedCexMesh 1 identityTransform = none ∧
    boundsOfVisits
      (groupVisits groupedCexMesh.geometry [(0, 0), (1, 1)]
        (fullBufferGroup groupedCexMesh.geometry [(0, 0), (1, 1)] 1)) =
      some ⟨0, 0, 1, 1⟩ := by
  refine ⟨?_, ?_, ?_⟩ <;>
    simp [computeRawUvBoundsForMaterial, computeUvBoundsForMaterial,
      groupedCexMesh, slotGroups, groupMatchesSlot, groupVisits,
      fullBufferGroup, boundsOfVisits, List.range_succ]

/-- C5 amended: when the geometry has no groups at all, both bounds
computations traverse the whole index buffer through the synthetic
whole-buffer group; but when groups exist and every group carries a
numeric material index different from the requested slot, both
computations return `none` instead of falling back. -/
theorem uvBounds_group_fallback_amended (mesh : Mesh) (materialIndex : ℕ)
    (texture : TextureTransform) (uvList : List (ℚ × ℚ))
    (huv : mesh.geometry.uv = some uvList) :
    (mesh.geometry.groups = [] →
      computeRawUvBoundsForMaterial mesh materialIndex =
        boundsOfVisits
          (groupVisits mesh.geometry uvList
            (fullBufferGroup mesh.geometry uvList materialIndex)) ∧
      computeUvBoundsForMaterial mesh materialIndex texture =
        boundsOfVisits
          ((groupVisits mesh.geometry uvList
              (fullBufferGroup mesh.geometry uvList materialIndex)).map
            (Option.map (fun p => applyTransform texture p.1 p.2)))) ∧
    ((mesh.geometry.groups ≠ [] ∧
      ∀ g ∈ mesh.geometry.groups, ∃ j, g.materialIndex = some j ∧
        j ≠ materialIndex) →
      computeRawUvBoundsForMaterial mesh materialIndex = none ∧
      computeUvBoundsForMaterial mesh materialIndex texture = none) := by
  constructor
  · intro hg
    have hslot : slotGroups mesh.geometry uvList materialIndex =
        [fullBufferGroup mesh.geometry uvList materialIndex] := by
      simp [slotGroups, hg, groupMatchesSlot, fullBufferGroup]
    constructor
    · simp [computeRawUvBoundsForMaterial, huv, hslot]
    · simp [computeUvBoundsForMaterial, huv, hslot]
  · rintro ⟨hne, hall⟩
    have hslot : slotGroups mesh.geometry uvList materialIndex = [] := by
      simp only [slotGroups, List.isEmpty_eq_true]
      rw [if_neg hne]
      rw [List.filter_eq_nil_iff]
      intro g hg
      obtain ⟨j, hj, hji⟩ := hall g hg
      simp [groupMatchesSlot, hj, hji]
    constructor
    · simp [computeRawUvBoundsForMaterial, huv, hslot, boundsOfVisits]
    · simp [computeUvBoundsForMaterial, huv, hslot, boundsOfVisits]

/-- Witness for the amended C5 theorem at a concrete mesh: slot 3 on a
groupless indexed geometry traverses the whole buffer, and slot 1 on
`groupedCexMesh` (whose only group is tagged 0) yields `none`. -/
theorem uvBounds_group_fallback_amended_witness :
    (Mesh.mk ⟨some [(0, 0), (1, 1)], some [0, 1], []⟩).geometry.groups = [] ∧
    computeRawUvBoundsForMaterial (Mesh.mk ⟨some [(0, 0), (1, 1)], some [0, 1], []⟩) 3 =
      boundsOfVisits
        (groupVisits (Mesh.mk ⟨some [(0, 0), (1, 1)], some [0, 1], []⟩).geometry
          [(0, 0), (1, 1)]
          (fullBufferGroup
            (Mesh.mk ⟨some [(0, 0), (1, 1)], some [0, 1], []⟩).geometry
            [(0, 0), (1, 1)] 3)) ∧
    computeRawUvBoundsForMaterial groupedCexMesh 1 = none := by
  refine ⟨rfl, ?_, ?_⟩
  · exact ((uvBounds_group_fallback_amended
      (Mesh.mk ⟨some [(0, 0), (1, 1)], some [0, 1], []⟩) 3 identityTransform
      [(0, 0), (1, 1)] rfl).1 rfl).1
  · exact ((uvBounds_group_fallback_amended groupedCexMesh 1
      identityTransform [(0, 0), (1, 1)] rfl).2
      ⟨by simp [groupedCexMesh], by simp [groupedCexMesh]⟩).1

/-- A browser `ImageData`: width, height and the flat RGBA byte array
(`data`, 4 entries per pixel, row-major).  A real `ImageData` has
`data.length = 4 * width * height`; the structure itself does not enforce
this so that the behaviour of the code on degenerate records can be
analysed. -/
structure ImageData where
  width : ℕ
  height : ℕ
  data : List ℚ
deriving DecidableEq

/-- Read one entry from the flat data array; an out-of-range (or negative)
index is JavaScript `undefined`, which poisons arithmetic like NaN, embedded
as `none`. -/
def readData (idata : ImageData) (i : ℤ) : Option ℚ :=
  if 0 ≤ i then idata.data.get? i.toNat else none

/-- NaN-propagating addition on JavaScript numbers. -/
def jsAdd : Option ℚ → Option ℚ → Option ℚ
  | some a, some b => some (a + b)
  | _, _ => none

/-- NaN-propagating subtraction on JavaScript numbers. -/
def jsSub : Option ℚ → Option ℚ → Option ℚ
  | some a, some b => some (a - b)
  | _, _ => none

/-- NaN-propagating multiplication on JavaScript numbers. -/
def jsMul : Option ℚ → Option ℚ → Option ℚ
  | some a, some b => some (a * b)
  | _, _ => none

/-- JavaScript `>` against a number: false when the left side is NaN. -/
def jsGt (a : Option ℚ) (q : ℚ) : Bool :=
  match a with
  | some v => decide (q < v)
  | none => false

/-- The border pixel coordinates visited by
`estimateBackgroundColorFromBorder` (materials_logo.js lines 122-123), in
visit order: `(x, 0)` and `(x, height-1)` for each column, then `(0, y)`
and `(width-1, y)` for `1 ≤ y < height-1`.  Coordinates are integers
because for degenerate sizes the code produces `-1` (e.g. `height - 1`
when `height = 0`). -/
def borderCoords (w h : ℕ) : List (ℤ × ℤ) :=
  (List.range w).flatMap (fun x => [((x : ℤ), 0), ((x : ℤ), (h : ℤ) - 1)]) ++
  (List.range (h - 2)).flatMap (fun k =>
    [(0, (k : ℤ) + 1), ((w : ℤ) - 1, (k : ℤ) + 1)])

/-- Channel read at a border coordinate: index `(y*width + x)*4 + off`. -/
def pixelChannelAt (idata : ImageData) (c : ℤ × ℤ) (off : ℕ) : Option ℚ :=
  readData idata ((c.2 * idata.width + c.1) * 4 + off)

/-- An RGB color whose channels are JavaScript numbers (possibly NaN). -/
structure JsColor where
  r : Option ℚ
  g : Option ℚ
  b : Option ℚ
deriving DecidableEq

/-- `estimateBackgroundColorFromBorder` (materials_logo.js lines 118-126):
sum the R, G and B channels over the border pixels, count them in `n`, and
return the per-channel means, or `{r: 0, g: 0, b: 0}` when `n = 0`. -/
def estimateBackgroundColorFromBorder (idata : ImageData) : JsColor :=
  let coords := borderCoords idata.width idata.height
  let n := coords.length
  if n = 0 then ⟨some 0, some 0, some 0⟩
  else
    ⟨(coords.foldl (fun a c => jsAdd a (pixelChannelAt idata c 0))
        (some 0)).map (· / (n : ℚ)),
     (coords.foldl (fun a c => jsAdd a (pixelChannelAt idata c 1))
        (some 0)).map (· / (n : ℚ)),
     (coords.foldl (fun a c => jsAdd a (pixelChannelAt idata c 2))
        (some 0)).map (· / (n : ℚ))⟩

/-- A foreground mask: dimensions plus a flat boolean grid indexed by
`y * width + x`. -/
structure MaskObj where
  width : ℕ
  height : ℕ
  mask : ℕ → Bool

/-- `buildForegroundMask` (materials_logo.js lines 128-143): a pixel is
foreground when its squared RGB distance to the background color exceeds
`threshold²` (a NaN distance — e.g. from a NaN background channel or an
out-of-range read — compares false and yields background). -/
def buildForegroundMask (idata : ImageData) (bg : JsColor) (threshold : ℚ) :
    MaskObj :=
  { width := idata.width
    height := idata.height
    mask := fun p =>
      let i : ℤ := (p : ℤ) * 4
      let dr := jsSub (readData idata i) bg.r
      let dg := jsSub (readData idata (i + 1)) bg.g
      let db := jsSub (readData idata (i + 2)) bg.b
      let dist2 := jsAdd (jsAdd (jsMul dr dr) (jsMul dg dg)) (jsMul db db)
      jsGt dist2 (threshold * threshold) }

/-- An integer pixel rectangle `{x, y, w, h}`. -/
structure PixelRect where
  x : ℤ
  y : ℤ
  w : ℤ
  h : ℤ
deriving DecidableEq

/-- The foreground pixel coordinates of a mask in scan order, as visited by
the double loop of `largestMaskBoundingBox` (materials_logo.js lines
148-158). -/
def maskForegroundCoords (mo : MaskObj) : List (ℕ × ℕ) :=
  (List.range mo.height).flatMap (fun y =>
    (List.range mo.width).filterMap (fun x =>
      if mo.mask (y * mo.width + x) then some (x, y) else none))

/-- `largestMaskBoundingBox` (materials_logo.js lines 145-167): `null` when
the mask has no foreground pixel; otherwise the tight foreground box padded
by `round(span * 0.08)` per axis, with `x`/`y` clamped at 0 and the width
and height clamped so the rectangle stays inside the mask. -/
def foldlMinBy {α : Type} (f : α → ℤ) (a : ℤ) (l : List α) : ℤ :=
  l.foldl (fun b q => min b (f q)) a

def foldlMaxBy {α : Type} (f : α → ℤ) (a : ℤ) (l : List α) : ℤ :=
  l.foldl (fun b q => max b (f q)) a

def largestMaskBoundingBox (mo : MaskObj) : Option PixelRect :=
  match maskForegroundCoords mo with
  | [] => none
  | p :: rest =>
    let minX : ℤ := foldlMinBy (fun q => (q.1 : ℤ)) (p.1 : ℤ) rest
    let minY : ℤ := foldlMinBy (fun q => (q.2 : ℤ)) (p.2 : ℤ) rest
    let maxX : ℤ := foldlMaxBy (fun q => (q.1 : ℤ)) (p.1 : ℤ) rest
    let maxY : ℤ := foldlMaxBy (fun q => (q.2 : ℤ)) (p.2 : ℤ) rest
    let padX := jsRound (((maxX - minX + 1 : ℤ) : ℚ) * (2/25))
    let padY := jsRound (((maxY - minY + 1 : ℤ) : ℚ) * (2/25))
    let x := max 0 (minX - padX)
    let y := max 0 (minY - padY)
    let w := min ((mo.width : ℤ) - x) (maxX - minX + 1 + 2 * padX)
    let h := min ((mo.height : ℤ) - y) (maxY - minY + 1 + 2 * padY)
    some ⟨x, y, w, h⟩

/-- The box described by the specification's words, for comparison with
`largestMaskBoundingBox`: the tightest box containing all foreground
pixels, expanded by the same 8% padding on each axis, then clamped to the
mask bounds on every side. -/
def specTightExpandedClampedBox (mo : MaskObj) : Option PixelRect :=
  match maskForegroundCoords mo with
  | [] => none
  | p :: rest =>
    let minX : ℤ := foldlMinBy (fun q => (q.1 : ℤ)) (p.1 : ℤ) rest
    let minY : ℤ := foldlMinBy (fun q => (q.2 : ℤ)) (p.2 : ℤ) rest
    let maxX : ℤ := foldlMaxBy (fun q => (q.1 : ℤ)) (p.1 : ℤ) rest
    let maxY : ℤ := foldlMaxBy (fun q => (q.2 : ℤ)) (p.2 : ℤ) rest
    let padX := jsRound (((maxX - minX + 1 : ℤ) : ℚ) * (2/25))
    let padY := jsRound (((maxY - minY + 1 : ℤ) : ℚ) * (2/25))
    let x := max 0 (minX - padX)
    let y := max 0 (minY - padY)
    let xhi := min ((mo.width : ℤ) - 1) (maxX + padX)
    let yhi := min ((mo.height : ℤ) - 1) (maxY + padY)
    some ⟨x, y, xhi - x + 1, yhi - y + 1⟩

lemma foldlMinBy_le_init {α : Type} (f : α → ℤ) (l : List α) :
    ∀ a : ℤ, foldlMinBy f a l ≤ a := by
  induction l with
  | nil => intro a; simp [foldlMinBy]
  | cons x xs ih =>
    intro a
    calc foldlMinBy f a (x :: xs) = foldlMinBy f (min a (f x)) xs := rfl
      _ ≤ min a (f x) := ih _
      _ ≤ a := min_le_left _ _

lemma foldlMinBy_le_mem {α : Type} (f : α → ℤ) (l : List α) :
    ∀ (a : ℤ) (x : α), x ∈ l → foldlMinBy f a l ≤ f x := by
  induction l with
  | nil => intro a x hx; cases hx
  | cons y ys ih =>
    intro a x hx
    rcases List.mem_cons.1 hx with h | h
    · subst h
      calc foldlMinBy f a (x :: ys) = foldlMinBy f (min a (f x)) ys := rfl
        _ ≤ min a (f x) := foldlMinBy_le_init _ _ _
        _ ≤ f x := min_le_right _ _
    · exact ih _ _ h

lemma le_foldlMinBy {α : Type} (f : α → ℤ) (l : List α) :
    ∀ (a c : ℤ), c ≤ a → (∀ x ∈ l, c ≤ f x) → c ≤ foldlMinBy f a l := by
  induction l with
  | nil => intro a c h _; simpa [foldlMinBy] using h
  | cons y ys ih =>
    intro a c ha hl
    refine ih _ _ (le_min ha (hl y (List.mem_cons_self _ _))) fun x hx =>
      hl x (List.mem_cons_of_mem _ hx)

lemma init_le_foldlMaxBy {α : Type} (f : α → ℤ) (l : List α) :
    ∀ a : ℤ, a ≤ foldlMaxBy f a l := by
  induction l with
  | nil => intro a; simp [foldlMaxBy]
  | cons x xs ih =>
    intro a
    calc a ≤ max a (f x) := le_max_left _ _
      _ ≤ foldlMaxBy f (max a (f x)) xs := ih _
      _ = foldlMaxBy f a (x :: xs) := rfl

lemma mem_le_foldlMaxBy {α : Type} (f : α → ℤ) (l : List α) :
    ∀ (a : ℤ) (x : α), x ∈ l → f x ≤ foldlMaxBy f a l := by
  induction l with
  | nil => intro a x hx; cases hx
  | cons y ys ih =>
    intro a x hx
    rcases List.mem_cons.1 hx with h | h
    · subst h
      calc f x ≤ max a (f x) := le_max_right _ _
        _ ≤ foldlMaxBy f (max a (f x)) ys := init_le_foldlMaxBy _ _ _
        _ = foldlMaxBy f a (x :: ys) := rfl
    · exact ih _ _ h

lemma foldlMaxBy_lt {α : Type} (f : α → ℤ) (l : List α) :
    ∀ (a c : ℤ), a < c → (∀ x ∈ l, f x < c) → foldlMaxBy f a l < c := by
  induction l with
  | nil => intro a c h _; simpa [foldlMaxBy] using h
  | cons y ys ih =>
    intro a c ha hl
    refine ih _ _ (max_lt ha (hl y (List.mem_cons_self _ _))) fun x hx =>
      hl x (List.mem_cons_of_mem _ hx)

lemma jsRound_nonneg {q : ℚ} (h : 0 ≤ q) : 0 ≤ jsRound q := by
  rw [jsRound]
  exact Int.le_floor.2 (by push_cast; linarith)

lemma mem_maskForegroundCoords (mo : MaskObj) (c : ℕ × ℕ) :
    c ∈ maskForegroundCoords mo ↔
      c.1 < mo.width ∧ c.2 < mo.height ∧
        mo.mask (c.2 * mo.width + c.1) = true := by
  obtain ⟨cx, cy⟩ := c
  simp only [maskForegroundCoords, List.mem_flatMap, List.mem_filterMap,
    List.mem_range]
  constructor
  · rintro ⟨y, hy, x, hx, hif⟩
    by_cases hm : mo.mask (y * mo.width + x) = true
    · rw [if_pos hm] at hif
      cases hif
      exact ⟨hx, hy, hm⟩
    · rw [if_neg hm] at hif
      cases hif
  · rintro ⟨h1, h2, h3⟩
    exact ⟨cy, h2, cx, h1, by rw [if_pos h3]⟩

/-- C8 amended: `largestMaskBoundingBox` returns `none` exactly when the
mask has no foreground pixel; otherwise the returned rectangle contains
every foreground pixel, lies entirely inside the mask bounds
(`0 ≤ x`, `0 ≤ y`, `x + w ≤ width`, `y + h ≤ height`) and has positive
extent.  The rectangle is the tight foreground box padded by
`round(0.08 * span)` per axis, but when the padding is clipped at the low
edge the code keeps the full padded span toward the high edge, so the box
may extend farther toward the high edge than the symmetric
expand-then-clamp box the specification describes (see the
counterexample). -/
theorem largestMaskBoundingBox_amended (mo : MaskObj) :
    (largestMaskBoundingBox mo = none ↔ maskForegroundCoords mo = []) ∧
    ∀ r, largestMaskBoundingBox mo = some r →
      (∀ c ∈ maskForegroundCoords mo,
        r.x ≤ (c.1 : ℤ) ∧ (c.1 : ℤ) < r.x + r.w ∧
        r.y ≤ (c.2 : ℤ) ∧ (c.2 : ℤ) < r.y + r.h) ∧
      0 ≤ r.x ∧ 0 ≤ r.y ∧ r.x + r.w ≤ (mo.width : ℤ) ∧
      r.y + r.h ≤ (mo.height : ℤ) ∧ 1 ≤ r.w ∧ 1 ≤ r.h := by
  rcases hco : maskForegroundCoords mo with _ | ⟨p, rest⟩
  · constructor
    · simp [largestMaskBoundingBox, hco]
    · intro r hr
      simp only [largestMaskBoundingBox, hco] at hr
      exact Option.noConfusion hr
  · constructor
    · simp [largestMaskBoundingBox, hco]
    · intro r hr
      simp only [largestMaskBoundingBox, hco] at hr
      set minX : ℤ := foldlMinBy (fun q => (q.1 : ℤ)) (p.1 : ℤ) rest with hminXd
      set minY : ℤ := foldlMinBy (fun q => (q.2 : ℤ)) (p.2 : ℤ) rest with hminYd
      set maxX : ℤ := foldlMaxBy (fun q => (q.1 : ℤ)) (p.1 : ℤ) rest with hmaxXd
      set maxY : ℤ := foldlMaxBy (fun q => (q.2 : ℤ)) (p.2 : ℤ) rest with hmaxYd
      set padX : ℤ := jsRound (((maxX - minX + 1 : ℤ) : ℚ) * (2/25)) with hpadXd
      set padY : ℤ := jsRound (((maxY - minY + 1 : ℤ) : ℚ) * (2/25)) with hpadYd
      have hmemc : ∀ c : ℕ × ℕ, c ∈ p :: rest →
          (c.1 : ℤ) < mo.width ∧ (c.2 : ℤ) < mo.height := by
        intro c hc
        have h := (mem_maskForegroundCoords mo c).1 (hco ▸ hc)
        exact ⟨by exact_mod_cast h.1, by exact_mod_cast h.2.1⟩
      have hminX_le : ∀ c : ℕ × ℕ, c ∈ p :: rest → minX ≤ (c.1 : ℤ) := by
        intro c hc
        rcases List.mem_cons.1 hc with h | h
        · subst h; exact foldlMinBy_le_init _ _ _
        · exact foldlMinBy_le_mem _ _ _ _ h
      have hminY_le : ∀ c : ℕ × ℕ, c ∈ p :: rest → minY ≤ (c.2 : ℤ) := by
        intro c hc
        rcases List.mem_cons.1 hc with h | h
        · subst h; exact foldlMinBy_le_init _ _ _
        · exact foldlMinBy_le_mem _ _ _ _ h
      have hle_maxX : ∀ c : ℕ × ℕ, c ∈ p :: rest → (c.1 : ℤ) ≤ maxX := by
        intro c hc
        rcases List.mem_cons.1 hc with h | h
        · subst h; exact init_le_foldlMaxBy _ _ _
        · exact mem_le_foldlMaxBy _ _ _ _ h
      have hle_maxY : ∀ c : ℕ × ℕ, c ∈ p :: rest → (c.2 : ℤ) ≤ maxY := by
        intro c hc
        rcases List.mem_cons.1 hc with h | h
        · subst h; exact init_le_foldlMaxBy _ _ _
        · exact mem_le_foldlMaxBy _ _ _ _ h
      have hminX0 : 0 ≤ minX :=
        le_foldlMinBy _ _ _ _ (Int.ofNat_nonneg _) fun q _ => Int.ofNat_nonneg _
      have hminY0 : 0 ≤ minY :=
        le_foldlMinBy _ _ _ _ (Int.ofNat_nonneg _) fun q _ => Int.ofNat_nonneg _
      have hmaxXw : maxX < (mo.width : ℤ) :=
        foldlMaxBy_lt _ _ _ _ (hmemc p (List.mem_cons_self _ _)).1
          fun q hq => (hmemc q (List.mem_cons_of_mem _ hq)).1
      have hmaxYh : maxY < (mo.height : ℤ) :=
        foldlMaxBy_lt _ _ _ _ (hmemc p (List.mem_cons_self _ _)).2
          fun q hq => (hmemc q (List.mem_cons_of_mem _ hq)).2
      have hXmm : minX ≤ maxX :=
        le_trans (foldlMinBy_le_init _ _ _) (init_le_foldlMaxBy _ _ _)
      have hYmm : minY ≤ maxY :=
        le_trans (foldlMinBy_le_init _ _ _) (init_le_foldlMaxBy _ _ _)
      have hspanX : (0 : ℤ) ≤ maxX - minX + 1 := by omega
      have hspanY : (0 : ℤ) ≤ maxY - minY + 1 := by omega
      have hpadX0 : 0 ≤ padX := by
        rw [hpadXd]
        exact jsRound_nonneg (mul_nonneg (by exact_mod_cast hspanX) (by norm_num))
      have hpadY0 : 0 ≤ padY := by
        rw [hpadYd]
        exact jsRound_nonneg (mul_nonneg (by exact_mod_cast hspanY) (by norm_num))
      cases hr
      refine ⟨?_, ?_, ?_, ?_, ?_, ?_, ?_⟩
      · intro c hc
        have h1 := hminX_le c hc
        have h2 := hminY_le c hc
        have h3 := hle_maxX c hc
        have h4 := hle_maxY c hc
        have h5 := hmemc c hc
        refine ⟨?_, ?_, ?_, ?_⟩ <;> simp only [] <;> omega
      · simp only []; omega
      · simp only []; omega
      · simp only []; omega
      · simp only []; omega
      · simp only []; omega
      · simp only []; omega

/-- A 20×1 mask whose foreground is the run of pixels `x < 7`. -/
def maskCex : MaskObj := ⟨20, 1, fun i => decide (i < 7)⟩

/-- C8 counterexample: on `maskCex` the tight foreground box is x ∈ [0,6]
(span 7, padding `round(0.56) = 1`).  Expanding by the padding on each
side and clamping to the mask gives width 8 (columns 0-7), but the code
returns width 9: the left padding is clipped at 0 while the full padded
span `7 + 2·1` is kept, extending the box to column 8.  So the returned
rectangle is not the tight box expanded by 8% on each axis and clamped. -/
theorem largestMaskBoundingBox_padding_counterexample :
    largestMaskBoundingBox maskCex = some ⟨0, 0, 9, 1⟩ ∧
    specTightExpandedClampedBox maskCex = some ⟨0, 0, 8, 1⟩ ∧
    largestMaskBoundingBox maskCex ≠ specTightExpandedClampedBox maskCex := by
  have hco : maskForegroundCoords maskCex =
      [(0, 0), (1, 0), (2, 0), (3, 0), (4, 0), (5, 0), (6, 0)] := by decide
  have h1 : largestMaskBoundingBox maskCex = some ⟨0, 0, 9, 1⟩ := by
    simp +decide only [largestMaskBoundingBox, hco, foldlMinBy, foldlMaxBy,
      List.foldl_cons, List.foldl_nil]
    norm_num [jsRound, maskCex]
  have h2 : specTightExpandedClampedBox maskCex = some ⟨0, 0, 8, 1⟩ := by
    simp +decide only [specTightExpandedClampedBox, hco, foldlMinBy,
      foldlMaxBy, List.foldl_cons, List.foldl_nil]
    norm_num [jsRound, maskCex]
  refine ⟨h1, h2, ?_⟩
  rw [h1, h2]
  simp +decide

/-- Witness for the amended C8 theorem: at the concrete mask `maskCex` the
box hypothesis holds and the guaranteed properties are obtained for the
foreground pixel `(6, 0)`. -/
theorem largestMaskBoundingBox_amended_witness :
    largestMaskBoundingBox maskCex = some ⟨0, 0, 9, 1⟩ ∧
    ((0 : ℤ) ≤ (6 : ℕ) ∧ ((6 : ℕ) : ℤ) < 0 + 9 ∧ (0 : ℤ) ≤ (0 : ℕ) ∧
      ((0 : ℕ) : ℤ) < 0 + 1) ∧
    (0 : ℤ) + 9 ≤ (maskCex.width : ℤ) ∧ (1 : ℤ) ≤ 9 := by
  have hbox : largestMaskBoundingBox maskCex = some ⟨0, 0, 9, 1⟩ := by
    have hco : maskForegroundCoords maskCex =
        [(0, 0), (1, 0), (2, 0), (3, 0), (4, 0), (5, 0), (6, 0)] := by decide
    simp +decide only [largestMaskBoundingBox, hco, foldlMinBy, foldlMaxBy,
      List.foldl_cons, List.foldl_nil]
    norm_num [jsRound, maskCex]
  have hmem : ((6 : ℕ), (0 : ℕ)) ∈ maskForegroundCoords maskCex := by decide
  have h := (largestMaskBoundingBox_amended maskCex).2 ⟨0, 0, 9, 1⟩ hbox
  exact ⟨hbox, h.1 (6, 0) hmem, h.2.2.2.1, h.2.2.2.2.2.1⟩

/-- The channel reads performed over the border of an image region. -/
def borderChannelReads (idata : ImageData) (off : ℕ) : List (Option ℚ) :=
  (borderCoords idata.width idata.height).map (fun c => pixelChannelAt idata c off)

lemma foldl_jsAdd_all_some (l : List (Option ℚ)) (hl : ∀ x ∈ l, x ≠ none) :
    ∀ a : ℚ, l.foldl (fun acc x => jsAdd acc x) (some a) =
      some (a + (l.filterMap id).sum) ∧ (l.filterMap id).length = l.length := by
  induction l with
  | nil => intro a; simp
  | cons x xs ih =>
    intro a
    rcases x with _ | v
    · exact absurd rfl (hl none (List.mem_cons_self _ _))
    · have ih2 := ih (fun y hy => hl y (List.mem_cons_of_mem _ hy)) (a + v)
      constructor
      · calc ((some v :: xs).foldl (fun acc x => jsAdd acc x) (some a))
            = xs.foldl (fun acc x => jsAdd acc x) (some (a + v)) := by
              simp [jsAdd]
          _ = some (a + v + (xs.filterMap id).sum) := ih2.1
          _ = some (a + ((some v :: xs).filterMap id).sum) := by
              simp [List.filterMap_cons]; ring
      · simpa [List.filterMap_cons] using ih2.2

lemma mem_borderCoords_bounds {w h : ℕ} (hw : 1 ≤ w) (hh : 1 ≤ h) :
    ∀ c ∈ borderCoords w h, 0 ≤ c.1 ∧ c.1 < (w : ℤ) ∧ 0 ≤ c.2 ∧ c.2 < (h : ℤ) := by
  intro c hc
  simp only [borderCoords, List.mem_append, List.mem_flatMap,
    List.mem_range] at hc
  rcases hc with ⟨x, hx, hcx⟩ | ⟨k, hk, hck⟩
  · simp only [List.mem_cons, List.mem_singleton] at hcx
    rcases hcx with rfl | rfl | h0
    · refine ⟨?_, ?_, ?_, ?_⟩ <;> dsimp only <;> omega
    · refine ⟨?_, ?_, ?_, ?_⟩ <;> dsimp only <;> omega
    · cases h0
  · simp only [List.mem_cons, List.mem_singleton] at hck
    rcases hck with rfl | rfl | h0
    · refine ⟨?_, ?_, ?_, ?_⟩ <;> dsimp only <;> omega
    · refine ⟨?_, ?_, ?_, ?_⟩ <;> dsimp only <;> omega
    · cases h0

lemma pixelChannelAt_some {idata : ImageData} (hw : 1 ≤ idata.width)
    (hh : 1 ≤ idata.height)
    (hlen : idata.data.length = 4 * idata.width * idata.height)
    {c : ℤ × ℤ} (hc : c ∈ borderCoords idata.width idata.height)
    {off : ℕ} (hoff : off < 4) :
    pixelChannelAt idata c off ≠ none ∧
      ∀ v, pixelChannelAt idata c off = some v → v ∈ idata.data := by
  obtain ⟨h1, h2, h3, h4⟩ := mem_borderCoords_bounds hw hh c hc
  have hoff0 : (0 : ℤ) ≤ off := Int.ofNat_nonneg _
  have hcw : 0 ≤ c.2 * (idata.width : ℤ) :=
    mul_nonneg h3 (Int.ofNat_nonneg _)
  have hi0 : 0 ≤ (c.2 * idata.width + c.1) * 4 + off := by linarith
  have hlt : (c.2 * idata.width + c.1) * 4 + off <
      ((4 * idata.width * idata.height : ℕ) : ℤ) := by
    have hc2 : c.2 ≤ (idata.height : ℤ) - 1 := by omega
    have hmul : c.2 * (idata.width : ℤ) ≤
        ((idata.height : ℤ) - 1) * idata.width :=
      mul_le_mul_of_nonneg_right hc2 (Int.ofNat_nonneg _)
    push_cast
    nlinarith
  have hidx : ((c.2 * idata.width + c.1) * 4 + off).toNat <
      idata.data.length := by
    rw [hlen]
    generalize hgen : (c.2 * (idata.width : ℤ) + c.1) * 4 + (off : ℤ) = z
      at hi0 hlt
    omega
  rw [pixelChannelAt, readData, if_pos hi0]
  rcases hget : idata.data.get? ((c.2 * idata.width + c.1) * 4 + off).toNat
    with _ | v
  · exact absurd hidx (not_lt.2 (List.get?_eq_none.1 hget))
  · exact ⟨by simp, fun u hu => by
      cases hu
      exact List.get?_mem hget⟩

/-- C10 counterexample: `estimateBackgroundColorFromBorder` applied to a
zero-width region of height 3 does not return `RGB(0,0,0)`: its border
loop still visits the two coordinates `(0, 1)` and `(-1, 1)`, whose reads
are out of range (NaN), so every returned channel is NaN rather than 0. -/
theorem estimateBackground_empty_counterexample :
    estimateBackgroundColorFromBorder ⟨0, 3, []⟩ = ⟨none, none, none⟩ ∧
    estimateBackgroundColorFromBorder ⟨0, 3, []⟩ ≠
      ⟨some 0, some 0, some 0⟩ := by
  constructor
  · decide
  · decide

lemma eq_map_filterMap_of_all_some (l : List (Option ℚ))
    (h : ∀ x ∈ l, x ≠ none) : l = (l.filterMap id).map some := by
  induction l with
  | nil => simp
  | cons x xs ih =>
    rcases x with _ | v
    · exact absurd rfl (h none (List.mem_cons_self _ _))
    · have := ih fun y hy => h y (List.mem_cons_of_mem _ hy)
      simp only [List.filterMap_cons, id, List.map_cons]
      exact List.cons_eq_cons.2 ⟨rfl, this⟩

lemma estimateBackground_channel (idata : ImageData) (hw : 1 ≤ idata.width)
    (hh : 1 ≤ idata.height)
    (hlen : idata.data.length = 4 * idata.width * idata.height)
    (hvals : ∀ v ∈ idata.data, 0 ≤ v ∧ v ≤ 255) (off : ℕ) (hoff : off < 4) :
    ∃ vs : List ℚ, borderChannelReads idata off = vs.map some ∧
      vs.length = (borderCoords idata.width idata.height).length ∧
      0 < vs.length ∧
      ((borderCoords idata.width idata.height).foldl
          (fun a c => jsAdd a (pixelChannelAt idata c off)) (some 0)).map
        (· / ((borderCoords idata.width idata.height).length : ℚ)) =
        some (vs.sum / vs.length) ∧
      0 ≤ vs.sum / vs.length ∧ vs.sum / vs.length ≤ 255 := by
  have hreads : ∀ x ∈ borderChannelReads idata off, x ≠ none := by
    intro x hx
    simp only [borderChannelReads, List.mem_map] at hx
    obtain ⟨c, hc, rfl⟩ := hx
    exact (pixelChannelAt_some hw hh hlen hc hoff).1
  have hfm := foldl_jsAdd_all_some (borderChannelReads idata off) hreads 0
  have hlen2 : ((borderChannelReads idata off).filterMap id).length =
      (borderCoords idata.width idata.height).length := by
    rw [hfm.2, borderChannelReads, List.length_map]
  have hmem0 : ((0 : ℤ), (0 : ℤ)) ∈
      borderCoords idata.width idata.height := by
    simp only [borderCoords, List.mem_append, List.mem_flatMap,
      List.mem_range]
    exact Or.inl ⟨0, hw, by simp⟩
  have hpos : 0 < (borderCoords idata.width idata.height).length :=
    List.length_pos.2 (List.ne_nil_of_mem hmem0)
  have hposf : 0 < ((borderChannelReads idata off).filterMap id).length := by
    rw [hlen2]
    exact hpos
  have hvin : ∀ v ∈ (borderChannelReads idata off).filterMap id,
      0 ≤ v ∧ v ≤ 255 := by
    intro v hv
    simp only [List.mem_filterMap, id] at hv
    obtain ⟨x, hx, hxv⟩ := hv
    simp only [borderChannelReads, List.mem_map] at hx
    obtain ⟨c, hc, rfl⟩ := hx
    exact hvals v ((pixelChannelAt_some hw hh hlen hc hoff).2 v hxv)
  have hfold : (borderCoords idata.width idata.height).foldl
      (fun a c => jsAdd a (pixelChannelAt idata c off)) (some 0) =
        some (((borderChannelReads idata off).filterMap id).sum) := by
    have h1 := hfm.1
    rw [borderChannelReads, List.foldl_map] at h1
    rw [h1, borderChannelReads, List.filterMap_map]
    norm_num [Function.comp]
  refine ⟨(borderChannelReads idata off).filterMap id,
    eq_map_filterMap_of_all_some _ hreads, hlen2, hposf, ?_, ?_, ?_⟩
  · rw [hfold]
    simp only [Option.map_some']
    rw [hlen2]
  · exact div_nonneg (List.sum_nonneg fun v hv => (hvin v hv).1)
      (by positivity)
  · rw [div_le_iff₀ (by exact_mod_cast hposf)]
    have hs := List.sum_le_card_nsmul
      ((borderChannelReads idata off).filterMap id) 255
      fun v hv => (hvin v hv).2
    rw [nsmul_eq_mul] at hs
    linarith

/-- C10 amended: `estimateBackgroundColorFromBorder` returns `RGB(0,0,0)`
exactly when its border loops take no sample, which happens when
`width = 0` and `height ≤ 2` — not for every zero-width or zero-height
record (a zero-width record of height ≥ 3 yields NaN channels, see the
counterexample; such records cannot arise from a real canvas
`getImageData`, which never produces zero-sized `ImageData`).  For every
region with `width ≥ 1`, `height ≥ 1` and a well-formed data array with
entries in [0, 255], each returned channel is the arithmetic mean of the
border pixels' values for that channel and lies within [0, 255]. -/
theorem estimateBackground_amended (idata : ImageData) :
    (idata.width = 0 ∧ idata.height ≤ 2 →
      estimateBackgroundColorFromBorder idata = ⟨some 0, some 0, some 0⟩) ∧
    (1 ≤ idata.width → 1 ≤ idata.height →
      idata.data.length = 4 * idata.width * idata.height →
      (∀ v ∈ idata.data, 0 ≤ v ∧ v ≤ 255) →
      ∃ rs gs bs : List ℚ,
        borderChannelReads idata 0 = rs.map some ∧
        borderChannelReads idata 1 = gs.map some ∧
        borderChannelReads idata 2 = bs.map some ∧
        estimateBackgroundColorFromBorder idata =
          ⟨some (rs.sum / rs.length), some (gs.sum / gs.length),
            some (bs.sum / bs.length)⟩ ∧
        0 ≤ rs.sum / rs.length ∧ rs.sum / rs.length ≤ 255 ∧
        0 ≤ gs.sum / gs.length ∧ gs.sum / gs.length ≤ 255 ∧
        0 ≤ bs.sum / bs.length ∧ bs.sum / bs.length ≤ 255) := by
  constructor
  · rintro ⟨hw, hh⟩
    have hc : borderCoords idata.width idata.height = [] := by
      simp [borderCoords, hw, Nat.sub_eq_zero_of_le hh]
    simp [estimateBackgroundColorFromBorder, hc]
  · intro hw hh hlen hvals
    obtain ⟨rs, hrs, hrl, hrp, hrmap, hr0, hr255⟩ :=
      estimateBackground_channel idata hw hh hlen hvals 0 (by norm_num)
    obtain ⟨gs, hgs, hgl, hgp, hgmap, hg0, hg255⟩ :=
      estimateBackground_channel idata hw hh hlen hvals 1 (by norm_num)
    obtain ⟨bs, hbs, hbl, hbp, hbmap, hb0, hb255⟩ :=
      estimateBackground_channel idata hw hh hlen hvals 2 (by norm_num)
    refine ⟨rs, gs, bs, hrs, hgs, hbs, ?_, hr0, hr255, hg0, hg255, hb0,
      hb255⟩
    have hne : ¬((borderCoords idata.width idata.height).length = 0) := by
      omega
    simp only [estimateBackgroundColorFromBorder]
    rw [if_neg hne, hrmap, hgmap, hbmap]

/-- Witness for the amended C10 theorem: a 1×1 image whose single pixel is
RGBA(10, 20, 30, 255) satisfies the well-formedness hypotheses, and a
0-width 0-height record returns `RGB(0,0,0)`. -/
theorem estimateBackground_amended_witness :
    (1 ≤ (1 : ℕ) ∧ ([10, 20, 30, 255] : List ℚ).length = 4 * 1 * 1) ∧
    estimateBackgroundColorFromBorder ⟨0, 0, []⟩ =
      ⟨some 0, some 0, some 0⟩ ∧
    (∃ rs gs bs : List ℚ,
      borderChannelReads ⟨1, 1, [10, 20, 30, 255]⟩ 0 = rs.map some ∧
      borderChannelReads ⟨1, 1, [10, 20, 30, 255]⟩ 1 = gs.map some ∧
      borderChannelReads ⟨1, 1, [10, 20, 30, 255]⟩ 2 = bs.map some ∧
      estimateBackgroundColorFromBorder ⟨1, 1, [10, 20, 30, 255]⟩ =
        ⟨some (rs.sum / rs.length), some (gs.sum / gs.length),
          some (bs.sum / bs.length)⟩ ∧
      0 ≤ rs.sum / rs.length ∧ rs.sum / rs.length ≤ 255 ∧
      0 ≤ gs.sum / gs.length ∧ gs.sum / gs.length ≤ 255 ∧
      0 ≤ bs.sum / bs.length ∧ bs.sum / bs.length ≤ 255) :=
  ⟨⟨le_refl 1, by norm_num⟩,
    (estimateBackground_amended ⟨0, 0, []⟩).1 ⟨rfl, by norm_num⟩,
    (estimateBackground_amended ⟨1, 1, [10, 20, 30, 255]⟩).2 (le_refl 1)
      (le_refl 1) (by norm_num)
      (by
        intro v hv
        simp only [List.mem_cons, List.not_mem_nil, or_false] at hv
        rcases hv with rfl | rfl | rfl | rfl <;> norm_num)⟩

/-- An RGBA pixel with rational channel values (bytes 0-255). -/
structure Rgba where
  r : ℚ
  g : ℚ
  b : ℚ
  a : ℚ
deriving DecidableEq

/-- A canvas: dimensions plus a total pixel function (column, row). -/
structure Canvas where
  width : ℕ
  height : ℕ
  pix : ℕ → ℕ → Rgba

/-- `ctx.getImageData(sx, sy, w, h)`: flatten the `w × h` sub-rectangle of
the canvas into a row-major RGBA byte array. -/
def getImageData (cv : Canvas) (sx sy w h : ℕ) : ImageData :=
  ⟨w, h,
    (List.range h).flatMap (fun y =>
      (List.range w).flatMap (fun x =>
        let p := cv.pix (sx + x) (sy + y)
        [p.r, p.g, p.b, p.a]))⟩

/-- `Uint8ClampedArray` store semantics: a NaN store yields 0 and values
are clamped into [0, 255]. -/
def clampByte (z : Option ℤ) : ℚ :=
  match z with
  | some v => ((max 0 (min 255 v) : ℤ) : ℚ)
  | none => 0

/-- The mask-erase step of `composeLogoIntoOriginalTexture`
(materials_logo.js lines 216-232): every masked (foreground) pixel of the
sub-rectangle image data is overwritten with the rounded background color
and alpha 255; unmasked pixels keep their data. -/
def eraseMaskedPixels (sub : ImageData) (mo : MaskObj) (bg : JsColor) :
    ImageData :=
  { sub with
    data := (List.range sub.data.length).map (fun j =>
      if mo.mask (j / 4) then
        match j % 4 with
        | 0 => clampByte (bg.r.map jsRound)
        | 1 => clampByte (bg.g.map jsRound)
        | 2 => clampByte (bg.b.map jsRound)
        | _ => 255
      else sub.data.getD j 0) }

/-- `ctx.putImageData(sub, sx, sy)`: replace the pixels of the destination
rectangle with the image-data contents; pixels outside are untouched. -/
def putImageData (cv : Canvas) (sub : ImageData) (sx sy : ℕ) : Canvas :=
  { cv with
    pix := fun x y =>
      if sx ≤ x ∧ x < sx + sub.width ∧ sy ≤ y ∧ y < sy + sub.height then
        ⟨sub.data.getD (((y - sy) * sub.width + (x - sx)) * 4) 0,
         sub.data.getD (((y - sy) * sub.width + (x - sx)) * 4 + 1) 0,
         sub.data.getD (((y - sy) * sub.width + (x - sx)) * 4 + 2) 0,
         sub.data.getD (((y - sy) * sub.width + (x - sx)) * 4 + 3) 0⟩
      else cv.pix x y }

/-- `ctx.drawImage(img, dx, dy, dw, dh)` scaled draw: exactly the pixels of
the destination rectangle are repainted.  Canvas filtering and source-over
alpha compositing are implementation-defined, so the painted color is
abstracted as a function `paint` of the destination coordinate and the
pixel underneath; the painted region is exact. -/
def drawImageRect (cv : Canvas) (paint : ℤ → ℤ → Rgba → Rgba)
    (dx dy dw dh : ℤ) : Canvas :=
  { cv with
    pix := fun x y =>
      if dx ≤ (x : ℤ) ∧ (x : ℤ) < dx + dw ∧ dy ≤ (y : ℤ) ∧ (y : ℤ) < dy + dh
      then paint (x : ℤ) (y : ℤ) (cv.pix x y)
      else cv.pix x y }

/-- The logo destination rectangle of `composeLogoIntoOriginalTexture`
(materials_logo.js lines 206-214): scale the logo to fit proportionally
within `coverage = 2.5` times the safe rectangle — deliberately overfilling
past it — and center it on the safe rectangle. -/
def logoDrawRect (sx sy sw sh : ℤ) (logoW logoH : ℚ) : ℤ × ℤ × ℤ × ℤ :=
  let availW := max 1 (jsRound ((sw : ℚ) * (5/2)))
  let availH := max 1 (jsRound ((sh : ℚ) * (5/2)))
  let scale := min ((availW : ℚ) / logoW) ((availH : ℚ) / logoH)
  let drawW := max 1 (jsRound (logoW * scale))
  let drawH := max 1 (jsRound (logoH * scale))
  let dx := sx + jsRound (((sw : ℚ) - (drawW : ℚ)) / 2)
  let dy := sy + jsRound (((sh : ℚ) - (drawH : ℚ)) / 2)
  (dx, dy, drawW, drawH)

/-- The pixel-buffer pipeline of `composeLogoIntoOriginalTexture`
(materials_logo.js lines 182-238), after the UV bounds have been resolved:
convert the bounds to the safe pixel rectangle, draw the atlas onto a
fresh canvas, read the sub-rectangle, estimate the background, build the
foreground mask (the detected bounding box is computed but its `target` is
never used afterwards), erase the masked pixels back to the background
color, write the sub-rectangle back, and finally draw the logo overfilled
by 2.5× and centered on the rectangle. -/
def composeLogoPipeline (atlas : Canvas) (b : UVBounds) (flipY : Option Bool)
    (logoW logoH : ℚ) (paint : ℤ → ℤ → Rgba → Rgba) : Canvas :=
  let rect := pixelRectOfBounds b atlas.width atlas.height flipY
  let sub := getImageData atlas rect.1.toNat rect.2.1.toNat rect.2.2.1.toNat
    rect.2.2.2.toNat
  let bg := estimateBackgroundColorFromBorder sub
  let mask := buildForegroundMask sub bg 28
  let _target := largestMaskBoundingBox mask
  let sub2 := eraseMaskedPixels sub mask bg
  let cv2 := putImageData atlas sub2 rect.1.toNat rect.2.1.toNat
  let dr := logoDrawRect rect.1 rect.2.1 rect.2.2.1 rect.2.2.2 logoW logoH
  drawImageRect cv2 paint dr.1 dr.2.1 dr.2.2.1 dr.2.2.2

/-- A base-color texture as consumed by `composeLogoIntoOriginalTexture`:
sampling transform, `flipY` flag and the atlas image. -/
structure LogoTexture where
  transform : TextureTransform
  flipY : Option Bool
  image : Canvas

/-- `composeLogoIntoOriginalTexture` (materials_logo.js lines 170-238):
fail (`throw`, embedded as `none`) when the texture image is not ready or
the UV bounds are unavailable, otherwise run the compositing pipeline on
the mesh's transformed UV bounds. -/
def composeLogoIntoOriginalTexture (mesh : Mesh) (materialIndex : ℕ)
    (originalTexture : LogoTexture) (logoW logoH : ℚ)
    (paint : ℤ → ℤ → Rgba → Rgba) : Option Canvas :=
  if originalTexture.image.width = 0 ∨ originalTexture.image.height = 0 then
    none
  else
    match computeUvBoundsForMaterial mesh materialIndex
        originalTexture.transform with
    | none => none
    | some b =>
      some (composeLogoPipeline originalTexture.image b
        originalTexture.flipY logoW logoH paint)

lemma pixelRectOfBounds_basic (b : UVBounds) (w h : ℕ) (flipY : Option Bool) :
    0 ≤ (pixelRectOfBounds b w h flipY).1 ∧
    0 ≤ (pixelRectOfBounds b w h flipY).2.1 ∧
    8 ≤ (pixelRectOfBounds b w h flipY).2.2.1 ∧
    8 ≤ (pixelRectOfBounds b w h flipY).2.2.2 :=
  ⟨le_max_left _ _, le_max_left _ _, le_max_left _ _, le_max_left _ _⟩

/-- C3 amended: the direct-atlas compositing pipeline leaves every pixel
outside the union of the target (safe) rectangle and the logo draw
rectangle identical to the original atlas.  The erasure step modifies only
pixels inside the target rectangle, but the drawn source image is scaled
to fit within 2.5× the rectangle (a deliberate overfill), centered on it,
and may therefore repaint pixels outside the rectangle. -/
theorem composeLogo_frame_amended (atlas : Canvas) (b : UVBounds)
    (flipY : Option Bool) (logoW logoH : ℚ) (paint : ℤ → ℤ → Rgba → Rgba)
    (x y : ℕ) (sx sy sw sh dx dy dw dh : ℤ)
    (hrect : pixelRectOfBounds b atlas.width atlas.height flipY =
      (sx, sy, sw, sh))
    (hdraw : logoDrawRect sx sy sw sh logoW logoH = (dx, dy, dw, dh))
    (hout1 : ¬(sx ≤ (x : ℤ) ∧ (x : ℤ) < sx + sw ∧ sy ≤ (y : ℤ) ∧
      (y : ℤ) < sy + sh))
    (hout2 : ¬(dx ≤ (x : ℤ) ∧ (x : ℤ) < dx + dw ∧ dy ≤ (y : ℤ) ∧
      (y : ℤ) < dy + dh)) :
    (composeLogoPipeline atlas b flipY logoW logoH paint).pix x y =
      atlas.pix x y := by
  have hbasic := pixelRectOfBounds_basic b atlas.width atlas.height flipY
  rw [hrect] at hbasic
  dsimp only at hbasic
  obtain ⟨hsx0, hsy0, hsw8, hsh8⟩ := hbasic
  simp only [composeLogoPipeline, hrect, hdraw, drawImageRect, putImageData,
    getImageData, eraseMaskedPixels]
  rw [if_neg hout2, if_neg (by omega :
    ¬(sx.toNat ≤ x ∧ x < sx.toNat + sw.toNat ∧ sy.toNat ≤ y ∧
      y < sy.toNat + sh.toNat))]

/-- The all-white 100×100 atlas used in the C3 counterexample. -/
def whiteAtlas : Canvas := ⟨100, 100, fun _ _ => ⟨255, 255, 255, 255⟩⟩

/-- An opaque red logo paint oracle. -/
def redPaint : ℤ → ℤ → Rgba → Rgba := fun _ _ _ => ⟨255, 0, 0, 255⟩

/-- C3 counterexample: degenerate UV bounds on the white 100×100 atlas give
the safe rectangle (50, 58, 8, 8), but a 100×100 logo is drawn at
(44, 52, 20, 20) — scaled to 2.5× the rectangle — so the pixel (44, 52),
which lies outside the target rectangle, is repainted (red instead of the
original white): the composited output does not equal the original atlas
at every pixel outside the target rectangle, and the drawn image is not
confined to the rectangle. -/
theorem composeLogo_frame_counterexample :
    pixelRectOfBounds ⟨1/2, 21/50, 1/2, 21/50⟩ 100 100 (some true) =
      (50, 58, 8, 8) ∧
    logoDrawRect 50 58 8 8 100 100 = (44, 52, 20, 20) ∧
    ¬((50 : ℤ) ≤ 44 ∧ (44 : ℤ) < 50 + 8 ∧ (58 : ℤ) ≤ 52 ∧
      (52 : ℤ) < 58 + 8) ∧
    (composeLogoPipeline whiteAtlas ⟨1/2, 21/50, 1/2, 21/50⟩ (some true)
        100 100 redPaint).pix 44 52 = ⟨255, 0, 0, 255⟩ ∧
    (composeLogoPipeline whiteAtlas ⟨1/2, 21/50, 1/2, 21/50⟩ (some true)
        100 100 redPaint).pix 44 52 ≠ whiteAtlas.pix 44 52 := by
  have hrect : pixelRectOfBounds ⟨1/2, 21/50, 1/2, 21/50⟩ 100 100
      (some true) = (50, 58, 8, 8) := by
    norm_num [pixelRectOfBounds, clamp01, vToY, jsRound]
  have hdraw : logoDrawRect 50 58 8 8 100 100 = (44, 52, 20, 20) := by
    norm_num [logoDrawRect, jsRound]
  have hwa : whiteAtlas.width = 100 ∧ whiteAtlas.height = 100 := ⟨rfl, rfl⟩
  have hpix : (composeLogoPipeline whiteAtlas ⟨1/2, 21/50, 1/2, 21/50⟩
      (some true) 100 100 redPaint).pix 44 52 = ⟨255, 0, 0, 255⟩ := by
    simp only [composeLogoPipeline, hwa.1, hwa.2, hrect, hdraw,
      drawImageRect]
    rw [if_pos (by norm_num)]
    rfl
  refine ⟨hrect, hdraw, by norm_num, hpix, ?_⟩
  rw [hpix]
  intro hcontra
  have := congrArg Rgba.g hcontra
  norm_num [whiteAtlas] at this

/-- Witness for the amended C3 theorem: at the concrete counterexample
inputs, the pixel (0, 0) lies outside both the target rectangle and the
logo draw rectangle, and the composited output equals the atlas there. -/
theorem composeLogo_frame_amended_witness :
    pixelRectOfBounds ⟨1/2, 21/50, 1/2, 21/50⟩ 100 100 (some true) =
      (50, 58, 8, 8) ∧
    logoDrawRect 50 58 8 8 100 100 = (44, 52, 20, 20) ∧
    (composeLogoPipeline whiteAtlas ⟨1/2, 21/50, 1/2, 21/50⟩ (some true)
        100 100 redPaint).pix 0 0 = whiteAtlas.pix 0 0 := by
  have hrect : pixelRectOfBounds ⟨1/2, 21/50, 1/2, 21/50⟩ 100 100
      (some true) = (50, 58, 8, 8) := by
    norm_num [pixelRectOfBounds, clamp01, vToY, jsRound]
  have hdraw : logoDrawRect 50 58 8 8 100 100 = (44, 52, 20, 20) := by
    norm_num [logoDrawRect, jsRound]
  refine ⟨hrect, hdraw, ?_⟩
  exact composeLogo_frame_amended whiteAtlas ⟨1/2, 21/50, 1/2, 21/50⟩
    (some true) 100 100 redPaint 0 0 50 58 8 8 44 52 20 20 hrect hdraw
    (by norm_num) (by norm_num)

/-- Membership of a pixel coordinate in an integer rectangle
`(x, y, w, h)`. -/
def insideRect (r : ℤ × ℤ × ℤ × ℤ) (x y : ℕ) : Prop :=
  r.1 ≤ (x : ℤ) ∧ (x : ℤ) < r.1 + r.2.2.1 ∧ r.2.1 ≤ (y : ℤ) ∧
    (y : ℤ) < r.2.1 + r.2.2.2

instance (r : ℤ × ℤ × ℤ × ℤ) (x y : ℕ) : Decidable (insideRect r x y) := by
  unfold insideRect
  infer_instance

/-- A PBR channel texture: image plus `flipY` flag. -/
structure PbrTexture where
  image : Canvas
  flipY : Option Bool

/-- The channel maps read by `neutralizePbrMapsForUvRect`
(materials_logo.js lines 320-323): `normalMap`, `roughnessMap`,
`metalnessMap`, `aoMap`; an absent map is `none`. -/
structure PbrMaterial where
  normalMap : Option PbrTexture
  roughnessMap : Option PbrTexture
  metalnessMap : Option PbrTexture
  aoMap : Option PbrTexture

/-- The rectangle computation of the `handle` closure of
`neutralizePbrMapsForUvRect` (materials_logo.js lines 253-271): convert
the UV bounds into the map's own pixel space and clamp into the image
(`bx ∈ [0, ew-1]`, `bw ∈ [1, ew-bx]`, and likewise vertically). -/
def pbrClampedRect (b : UVBounds) (ew eh : ℕ) (flipY : Option Bool) :
    ℤ × ℤ × ℤ × ℤ :=
  let eY1 := vToY flipY b.minV (eh : ℚ)
  let eY2 := vToY flipY b.maxV (eh : ℚ)
  let eRectX := jsRound (clamp01 b.minU * (ew : ℚ))
  let eRectY := min eY1 eY2
  let eRectW := max 1 (jsRound ((clamp01 b.maxU - clamp01 b.minU) * (ew : ℚ)))
  let eRectH := max 1 |eY2 - eY1|
  let bx0 := max 0 (min ((ew : ℤ) - 1) eRectX)
  let by0 := max 0 (min ((eh : ℤ) - 1) eRectY)
  let bw0 := max 1 (min ((ew : ℤ) - bx0) eRectW)
  let bh0 := max 1 (min ((eh : ℤ) - by0) eRectH)
  (bx0, by0, bw0, bh0)

/-- The four 2-px border sample strips of the rectangle (materials_logo.js
lines 285-291): top, bottom, left and right edge strips of the rectangle
itself (overlapping at the corners), each as `(x, y, w, h)`. -/
def pbrSampleRects (bx0 by0 bw0 bh0 : ℤ) : List (ℤ × ℤ × ℤ × ℤ) :=
  [(bx0, by0, bw0, min 2 bh0),
   (bx0, by0 + max 0 (bh0 - 2), bw0, min 2 bh0),
   (bx0, by0, min 2 bw0, bh0),
   (bx0 + max 0 (bw0 - 2), by0, min 2 bw0, bh0)]

/-- Sum of one channel over all pixels of a rectangle of the canvas (the
code reads the rectangle through `getImageData` and iterates its data
linearly; the multiset of visited pixels is exactly the rectangle). -/
def rectChannelSum (cv : Canvas) (r : ℤ × ℤ × ℤ × ℤ) (ch : Rgba → ℚ) : ℚ :=
  ((List.range r.2.2.2.toNat).flatMap (fun j =>
    (List.range r.2.2.1.toNat).map (fun i =>
      ch (cv.pix (r.1.toNat + i) (r.2.1.toNat + j))))).sum

/-- The per-channel border average of `neutralizePbrMapsForUvRect`
(materials_logo.js lines 292-301): sum the channel over the four border
strips (skipping degenerate strips), divide by the total pixel count and
round; 0 when no pixel was sampled. -/
def pbrBorderAverage (cv : Canvas) (bx0 by0 bw0 bh0 : ℤ) (ch : Rgba → ℚ) :
    ℤ :=
  let rects := (pbrSampleRects bx0 by0 bw0 bh0).filter
    (fun r => decide (0 < r.2.2.1) && decide (0 < r.2.2.2))
  let total := (rects.map (fun r => rectChannelSum cv r ch)).sum
  let count : ℕ := (rects.map (fun r => r.2.2.1.toNat * r.2.2.2.toNat)).sum
  if count = 0 then 0 else jsRound (total / (count : ℚ))

/-- The per-kind rectangle fill of `neutralizePbrMapsForUvRect`
(materials_logo.js lines 273-314).  A normal map is filled with the flat
normal encoding RGB(128, 128, 255); roughness, metalness and AO maps get
the border average written into the green, blue and red channel
respectively (the other color channels of each pixel are left unchanged);
alpha is set to 255 in all cases.  Pixels outside the rectangle are
untouched. -/
inductive PbrKind
  | normal
  | roughness
  | metalness
  | ao
deriving DecidableEq

def neutralizedImage (kind : PbrKind) (cv : Canvas) (b : UVBounds)
    (flipY : Option Bool) : Canvas :=
  let r := pbrClampedRect b cv.width cv.height flipY
  match kind with
  | PbrKind.normal =>
    { cv with pix := fun x y =>
        if insideRect r x y then ⟨128, 128, 255, 255⟩ else cv.pix x y }
  | PbrKind.roughness =>
    let avgG := pbrBorderAverage cv r.1 r.2.1 r.2.2.1 r.2.2.2 Rgba.g
    { cv with pix := fun x y =>
        if insideRect r x y then
          ⟨(cv.pix x y).r, (avgG : ℚ), (cv.pix x y).b, 255⟩
        else cv.pix x y }
  | PbrKind.metalness =>
    let avgB := pbrBorderAverage cv r.1 r.2.1 r.2.2.1 r.2.2.2 Rgba.b
    { cv with pix := fun x y =>
        if insideRect r x y then
          ⟨(cv.pix x y).r, (cv.pix x y).g, (avgB : ℚ), 255⟩
        else cv.pix x y }
  | PbrKind.ao =>
    let avgR := pbrBorderAverage cv r.1 r.2.1 r.2.2.1 r.2.2.2 Rgba.r
    { cv with pix := fun x y =>
        if insideRect r x y then
          ⟨(avgR : ℚ), (cv.pix x y).g, (cv.pix x y).b, 255⟩
        else cv.pix x y }

/-- The `handle` closure (materials_logo.js lines 247-318): skip an absent
map (`!tex || !tex.image`) and a map whose image has no usable dimensions
(`!ew || !eh`); otherwise install the neutralized image. -/
def handlePbrMap (kind : PbrKind) (b : UVBounds) :
    Option PbrTexture → Option PbrTexture
  | none => none
  | some tex =>
    if tex.image.width = 0 ∨ tex.image.height = 0 then some tex
    else some { tex with image := neutralizedImage kind tex.image b tex.flipY }

/-- `neutralizePbrMapsForUvRect` (materials_logo.js lines 241-324): return
unchanged when the bounds are absent; otherwise handle the four channel
maps independently. -/
def neutralizePbrMapsForUvRect (mat : PbrMaterial) (bounds : Option UVBounds) :
    PbrMaterial :=
  match bounds with
  | none => mat
  | some b =>
    { normalMap := handlePbrMap PbrKind.normal b mat.normalMap
      roughnessMap := handlePbrMap PbrKind.roughness b mat.roughnessMap
      metalnessMap := handlePbrMap PbrKind.metalness b mat.metalnessMap
      aoMap := handlePbrMap PbrKind.ao b mat.aoMap }

/-- The clamped rectangle of a PBR map in its own pixel space. -/
def pbrRectOf (tex : PbrTexture) (b : UVBounds) : ℤ × ℤ × ℤ × ℤ :=
  pbrClampedRect b tex.image.width tex.image.height tex.flipY

/-- The border average of a PBR map over its clamped rectangle. -/
def pbrAvgOf (tex : PbrTexture) (b : UVBounds) (ch : Rgba → ℚ) : ℤ :=
  pbrBorderAverage tex.image (pbrRectOf tex b).1 (pbrRectOf tex b).2.1
    (pbrRectOf tex b).2.2.1 (pbrRectOf tex b).2.2.2 ch

/-- C7: PBR channel neutralization.  Absent maps are skipped; a present
normal map has its rectangle filled with the flat-normal encoding
RGB(128, 128, 255); present roughness/metalness/AO maps have their
rectangle filled with the single value obtained by averaging the 2-px
border strips of the rectangle, written into the green / blue / red
channel respectively (the other color channels of each pixel keep their
values, alpha becomes 255); pixels outside the rectangle are unchanged. -/
theorem neutralizePbrMaps_channels (mat : PbrMaterial) (b : UVBounds) :
    (mat.normalMap = none →
      (neutralizePbrMapsForUvRect mat (some b)).normalMap = none) ∧
    (mat.roughnessMap = none →
      (neutralizePbrMapsForUvRect mat (some b)).roughnessMap = none) ∧
    (mat.metalnessMap = none →
      (neutralizePbrMapsForUvRect mat (some b)).metalnessMap = none) ∧
    (mat.aoMap = none →
      (neutralizePbrMapsForUvRect mat (some b)).aoMap = none) ∧
    (∀ tex, mat.normalMap = some tex → 1 ≤ tex.image.width →
      1 ≤ tex.image.height →
      ∃ tex', (neutralizePbrMapsForUvRect mat (some b)).normalMap =
          some tex' ∧
        tex'.flipY = tex.flipY ∧ tex'.image.width = tex.image.width ∧
        tex'.image.height = tex.image.height ∧
        ∀ x y : ℕ, tex'.image.pix x y =
          if insideRect (pbrRectOf tex b) x y then ⟨128, 128, 255, 255⟩
          else tex.image.pix x y) ∧
    (∀ tex, mat.roughnessMap = some tex → 1 ≤ tex.image.width →
      1 ≤ tex.image.height →
      ∃ tex', (neutralizePbrMapsForUvRect mat (some b)).roughnessMap =
          some tex' ∧
        tex'.flipY = tex.flipY ∧ tex'.image.width = tex.image.width ∧
        tex'.image.height = tex.image.height ∧
        ∀ x y : ℕ, tex'.image.pix x y =
          if insideRect (pbrRectOf tex b) x y then
            ⟨(tex.image.pix x y).r, (pbrAvgOf tex b Rgba.g : ℚ),
              (tex.image.pix x y).b, 255⟩
          else tex.image.pix x y) ∧
    (∀ tex, mat.metalnessMap = some tex → 1 ≤ tex.image.width →
      1 ≤ tex.image.height →
      ∃ tex', (neutralizePbrMapsForUvRect mat (some b)).metalnessMap =
          some tex' ∧
        tex'.flipY = tex.flipY ∧ tex'.image.width = tex.image.width ∧
        tex'.image.height = tex.image.height ∧
        ∀ x y : ℕ, tex'.image.pix x y =
          if insideRect (pbrRectOf tex b) x y then
            ⟨(tex.image.pix x y).r, (tex.image.pix x y).g,
              (pbrAvgOf tex b Rgba.b : ℚ), 255⟩
          else tex.image.pix x y) ∧
    (∀ tex, mat.aoMap = some tex → 1 ≤ tex.image.width →
      1 ≤ tex.image.height →
      ∃ tex', (neutralizePbrMapsForUvRect mat (some b)).aoMap = some tex' ∧
        tex'.flipY = tex.flipY ∧ tex'.image.width = tex.image.width ∧
        tex'.image.height = tex.image.height ∧
        ∀ x y : ℕ, tex'.image.pix x y =
          if insideRect (pbrRectOf tex b) x y then
            ⟨(pbrAvgOf tex b Rgba.r : ℚ), (tex.image.pix x y).g,
              (tex.image.pix x y).b, 255⟩
          else tex.image.pix x y) := by
  refine ⟨?_, ?_, ?_, ?_, ?_, ?_, ?_, ?_⟩
  · intro h
    simp [neutralizePbrMapsForUvRect, h, handlePbrMap]
  · intro h
    simp [neutralizePbrMapsForUvRect, h, handlePbrMap]
  · intro h
    simp [neutralizePbrMapsForUvRect, h, handlePbrMap]
  · intro h
    simp [neutralizePbrMapsForUvRect, h, handlePbrMap]
  · intro tex htex hw hh
    have hne : ¬(tex.image.width = 0 ∨ tex.image.height = 0) := by omega
    refine ⟨⟨neutralizedImage PbrKind.normal tex.image b tex.flipY,
      tex.flipY⟩, ?_, rfl, rfl, rfl, fun x y => rfl⟩
    simp only [neutralizePbrMapsForUvRect, htex, handlePbrMap]
    rw [if_neg hne]
  · intro tex htex hw hh
    have hne : ¬(tex.image.width = 0 ∨ tex.image.height = 0) := by omega
    refine ⟨⟨neutralizedImage PbrKind.roughness tex.image b tex.flipY,
      tex.flipY⟩, ?_, rfl, rfl, rfl, fun x y => rfl⟩
    simp only [neutralizePbrMapsForUvRect, htex, handlePbrMap]
    rw [if_neg hne]
  · intro tex htex hw hh
    have hne : ¬(tex.image.width = 0 ∨ tex.image.height = 0) := by omega
    refine ⟨⟨neutralizedImage PbrKind.metalness tex.image b tex.flipY,
      tex.flipY⟩, ?_, rfl, rfl, rfl, fun x y => rfl⟩
    simp only [neutralizePbrMapsForUvRect, htex, handlePbrMap]
    rw [if_neg hne]
  · intro tex htex hw hh
    have hne : ¬(tex.image.width = 0 ∨ tex.image.height = 0) := by omega
    refine ⟨⟨neutralizedImage PbrKind.ao tex.image b tex.flipY,
      tex.flipY⟩, ?_, rfl, rfl, rfl, fun x y => rfl⟩
    simp only [neutralizePbrMapsForUvRect, htex, handlePbrMap]
    rw [if_neg hne]

/-- An 8×8 canvas of constant RGBA(10, 20, 30, 255). -/
def grayCanvas : Canvas := ⟨8, 8, fun _ _ => ⟨10, 20, 30, 255⟩⟩

/-- A PBR texture over the gray canvas with `flipY = true`. -/
def grayTex : PbrTexture := ⟨grayCanvas, some true⟩

/-- A material with normal, roughness and metalness maps present and the
AO map absent. -/
def pbrMatCex : PbrMaterial := ⟨some grayTex, some grayTex, some grayTex, none⟩

/-- Witness for the C7 theorem: on a concrete material the absent AO map
stays absent and the present roughness map is rewritten according to the
green-channel border-average fill. -/
theorem neutralizePbrMaps_channels_witness :
    (neutralizePbrMapsForUvRect pbrMatCex (some ⟨0, 0, 1, 1⟩)).aoMap =
      none ∧
    (1 ≤ grayTex.image.width ∧ 1 ≤ grayTex.image.height) ∧
    (∃ tex', (neutralizePbrMapsForUvRect pbrMatCex
        (some ⟨0, 0, 1, 1⟩)).roughnessMap = some tex' ∧
      tex'.flipY = grayTex.flipY ∧ tex'.image.width = grayTex.image.width ∧
      tex'.image.height = grayTex.image.height ∧
      ∀ x y : ℕ, tex'.image.pix x y =
        if insideRect (pbrRectOf grayTex ⟨0, 0, 1, 1⟩) x y then
          ⟨(grayTex.image.pix x y).r,
            (pbrAvgOf grayTex ⟨0, 0, 1, 1⟩ Rgba.g : ℚ),
            (grayTex.image.pix x y).b, 255⟩
        else grayTex.image.pix x y) :=
  ⟨(neutralizePbrMaps_channels pbrMatCex ⟨0, 0, 1, 1⟩).2.2.2.1 rfl,
   ⟨le_refl 1 |>.trans (by norm_num [grayTex, grayCanvas]),
    le_refl 1 |>.trans (by norm_num [grayTex, grayCanvas])⟩,
   (neutralizePbrMaps_channels pbrMatCex ⟨0, 0, 1, 1⟩).2.2.2.2.2.1 grayTex
     rfl (by norm_num [grayTex, grayCanvas])
     (by norm_num [grayTex, grayCanvas])⟩

/-- A material as seen by the copy-on-write clone step of
`replaceMaterial003BaseMap` (materials_logo.js lines 333-342) and
`applyBakedTextureToModel` (materials_baked.js lines 26-33, identical
pattern with the `_clonedForBaked` flag): object identity, whether the
material name matches the target pattern
(`/material[\s._-]*0*03/i` for the logo feature — embedded as a
precomputed predicate, the claims never exercise the regular expression
itself), and the `_clonedForLogo` marker flag stored on the material's own
`userData`. -/
structure LMat where
  id : ℕ
  nameMatches : Bool
  clonedForLogo : Bool
deriving DecidableEq

/-- The material object store plus the fresh-identity counter. -/
structure CloneStore where
  mats : List LMat
  nextId : ℕ
deriving DecidableEq

/-- Resolve a material reference (object identity). -/
def lookupMat (mats : List LMat) (i : ℕ) : Option LMat :=
  mats.find? (fun m => m.id == i)

/-- The per-slot copy-on-write step (materials_logo.js lines 333-342):
when the slot's material matches the name pattern and does not carry the
`_clonedForLogo` flag, clone it — the clone gets a fresh identity, the
copied name, and the flag set in its own fresh `userData`; the original
material's `userData` is NOT modified — and install the clone in the
slot.  Otherwise the slot is left untouched.  Returns the updated store
and the slot's (possibly new) material reference. -/
def cloneSlotStep (s : CloneStore) (slot : ℕ) : CloneStore × ℕ :=
  match lookupMat s.mats slot with
  | none => (s, slot)
  | some m =>
    if m.nameMatches && !m.clonedForLogo then
      (⟨s.mats ++ [⟨s.nextId, m.nameMatches, true⟩], s.nextId + 1⟩, s.nextId)
    else (s, slot)

/-- Process the material slots of one mesh in order. -/
def cloneSlotsStep : CloneStore → List ℕ → CloneStore × List ℕ
  | s, [] => (s, [])
  | s, slot :: rest =>
    let p := cloneSlotStep s slot
    let q := cloneSlotsStep p.1 rest
    (q.1, p.2 :: q.2)

/-- The `modelRoot.traverse` of `replaceMaterial003BaseMap`: process every
mesh's material slots in traversal order against the shared store. -/
def cloneTraversal : CloneStore → List (List ℕ) → CloneStore × List (List ℕ)
  | s, [] => (s, [])
  | s, mesh :: rest =>
    let p := cloneSlotsStep s mesh
    let q := cloneTraversal p.1 rest
    (q.1, p.2 :: q.2)

/-- Well-formed store: every material identity is below the fresh
counter. -/
def storeWF (s : CloneStore) : Prop := ∀ m ∈ s.mats, m.id < s.nextId

/-- The store only grows: materials are appended (never removed or
modified), every appended material carries the clone flag and a fresh
identity, and the counter is monotone. -/
def storeGrows (s s' : CloneStore) : Prop :=
  (∃ tail, s'.mats = s.mats ++ tail ∧
    ∀ m ∈ tail, m.clonedForLogo = true ∧ s.nextId ≤ m.id) ∧
  s.nextId ≤ s'.nextId

/-- A slot is settled when the material it resolves to is either
non-matching or already cloned. -/
def goodSlot (s : CloneStore) (slot : ℕ) : Prop :=
  ∀ m, lookupMat s.mats slot = some m → m.nameMatches = true →
    m.clonedForLogo = true

lemma storeGrows_refl (s : CloneStore) : storeGrows s s :=
  ⟨⟨[], by simp, by simp⟩, le_refl _⟩

lemma storeGrows_trans {s1 s2 s3 : CloneStore} (h1 : storeGrows s1 s2)
    (h2 : storeGrows s2 s3) : storeGrows s1 s3 := by
  obtain ⟨⟨t1, ht1, hp1⟩, hn1⟩ := h1
  obtain ⟨⟨t2, ht2, hp2⟩, hn2⟩ := h2
  refine ⟨⟨t1 ++ t2, by rw [ht2, ht1, List.append_assoc], ?_⟩, le_trans hn1 hn2⟩
  intro m hm
  rcases List.mem_append.1 hm with h | h
  · exact ⟨(hp1 m h).1, (hp1 m h).2⟩
  · exact ⟨(hp2 m h).1, le_trans hn1 (hp2 m h).2⟩

lemma lookupMat_append_of_some {mats : List LMat} {i : ℕ} {m : LMat}
    (h : lookupMat mats i = some m) (tail : List LMat) :
    lookupMat (mats ++ tail) i = some m := by
  rw [lookupMat] at h ⊢
  rw [List.find?_append, h]
  rfl

lemma lookupMat_append_of_none {mats : List LMat} {i : ℕ}
    (h : lookupMat mats i = none) (tail : List LMat) :
    lookupMat (mats ++ tail) i = lookupMat tail i := by
  rw [lookupMat, lookupMat] at *
  rw [List.find?_append, h]
  simp

lemma goodSlot_mono {s s' : CloneStore} {i : ℕ} (hg : storeGrows s s')
    (h : goodSlot s i) : goodSlot s' i := by
  obtain ⟨⟨tail, htail, hprop⟩, _⟩ := hg
  intro m hm hname
  cases hlook : lookupMat s.mats i with
  | none =>
    rw [htail, lookupMat_append_of_none hlook] at hm
    exact (hprop m (List.mem_of_find?_eq_some hm)).1
  | some m0 =>
    rw [htail, lookupMat_append_of_some hlook] at hm
    injection hm with hm2
    subst hm2
    exact h m0 hlook hname

lemma cloneSlotStep_eq_none {s : CloneStore} {slot : ℕ}
    (h : lookupMat s.mats slot = none) : cloneSlotStep s slot = (s, slot) := by
  rw [cloneSlotStep, h]

lemma cloneSlotStep_eq_clone {s : CloneStore} {slot : ℕ} {m : LMat}
    (h : lookupMat s.mats slot = some m)
    (hc : (m.nameMatches && !m.clonedForLogo) = true) :
    cloneSlotStep s slot =
      (⟨s.mats ++ [⟨s.nextId, m.nameMatches, true⟩], s.nextId + 1⟩,
        s.nextId) := by
  rw [cloneSlotStep, h]
  simp only [hc, if_true]

lemma cloneSlotStep_eq_keep {s : CloneStore} {slot : ℕ} {m : LMat}
    (h : lookupMat s.mats slot = some m)
    (hc : ¬((m.nameMatches && !m.clonedForLogo) = true)) :
    cloneSlotStep s slot = (s, slot) := by
  rw [cloneSlotStep, h]
  simp only [if_neg hc]

lemma lookupMat_fresh {s : CloneStore} (hwf : storeWF s) {c : LMat}
    (hc : c.id = s.nextId) :
    lookupMat (s.mats ++ [c]) s.nextId = some c := by
  have hnone : lookupMat s.mats s.nextId = none := by
    rw [lookupMat]
    refine List.find?_eq_none.2 fun m hm => ?_
    have := hwf m hm
    simp only [beq_iff_eq]
    omega
  rw [lookupMat_append_of_none hnone, lookupMat]
  simp [hc]

lemma cloneSlotStep_spec (s : CloneStore) (slot : ℕ) (hwf : storeWF s) :
    storeGrows s (cloneSlotStep s slot).1 ∧
    storeWF (cloneSlotStep s slot).1 ∧
    goodSlot (cloneSlotStep s slot).1 (cloneSlotStep s slot).2 := by
  cases hlook : lookupMat s.mats slot with
  | none =>
    rw [cloneSlotStep_eq_none hlook]
    refine ⟨storeGrows_refl s, hwf, ?_⟩
    intro m hm _
    rw [hlook] at hm
    cases hm
  | some m =>
    by_cases hc : (m.nameMatches && !m.clonedForLogo) = true
    · rw [cloneSlotStep_eq_clone hlook hc]
      refine ⟨⟨⟨[⟨s.nextId, m.nameMatches, true⟩], rfl, ?_⟩, ?_⟩, ?_, ?_⟩
      · intro c hcm
        rw [List.mem_singleton] at hcm
        subst hcm
        exact ⟨rfl, le_refl _⟩
      · exact Nat.le_succ _
      · intro c hcm
        rcases List.mem_append.1 hcm with h | h
        · exact lt_trans (hwf c h) (Nat.lt_succ_self _)
        · rw [List.mem_singleton] at h
          subst h
          exact Nat.lt_succ_self _
      · intro c hcm _
        rw [show (⟨s.mats ++ [⟨s.nextId, m.nameMatches, true⟩],
            s.nextId + 1⟩ : CloneStore).mats =
          s.mats ++ [⟨s.nextId, m.nameMatches, true⟩] from rfl] at hcm
        rw [lookupMat_fresh hwf rfl] at hcm
        injection hcm with hcm2
        subst hcm2
        rfl
    · rw [cloneSlotStep_eq_keep hlook hc]
      refine ⟨storeGrows_refl s, hwf, ?_⟩
      intro c hcm hname
      rw [hlook] at hcm
      injection hcm with hcm2
      rw [← hcm2] at hname ⊢
      simp only [Bool.and_eq_true, Bool.not_eq_true'] at hc
      rcases Bool.eq_false_or_eq_true m.clonedForLogo with h | h
      · exact h
      · exact absurd ⟨hname, h⟩ hc

lemma cloneSlotStep_of_good {s : CloneStore} {slot : ℕ}
    (h : goodSlot s slot) : cloneSlotStep s slot = (s, slot) := by
  cases hlook : lookupMat s.mats slot with
  | none => exact cloneSlotStep_eq_none hlook
  | some m =>
    refine cloneSlotStep_eq_keep hlook fun hc => ?_
    simp only [Bool.and_eq_true, Bool.not_eq_true'] at hc
    have := h m hlook hc.1
    rw [this] at hc
    exact absurd hc.2 (by decide)

lemma cloneSlotsStep_spec : ∀ (slots : List ℕ) (s : CloneStore),
    storeWF s →
    storeGrows s (cloneSlotsStep s slots).1 ∧
    storeWF (cloneSlotsStep s slots).1 ∧
    ∀ i ∈ (cloneSlotsStep s slots).2, goodSlot (cloneSlotsStep s slots).1 i := by
  intro slots
  induction slots with
  | nil =>
    intro s hwf
    exact ⟨storeGrows_refl s, hwf, by simp [cloneSlotsStep]⟩
  | cons slot rest ih =>
    intro s hwf
    obtain ⟨hg1, hwf1, hgood1⟩ := cloneSlotStep_spec s slot hwf
    obtain ⟨hg2, hwf2, hgood2⟩ := ih (cloneSlotStep s slot).1 hwf1
    refine ⟨storeGrows_trans hg1 hg2, hwf2, ?_⟩
    intro i hi
    rw [show (cloneSlotsStep s (slot :: rest)).2 =
      (cloneSlotStep s slot).2 ::
        (cloneSlotsStep (cloneSlotStep s slot).1 rest).2 from rfl] at hi
    rcases List.mem_cons.1 hi with h | h
    · subst h
      exact goodSlot_mono hg2 hgood1
    · exact hgood2 i h

lemma cloneSlotsStep_of_good : ∀ (slots : List ℕ) (s : CloneStore),
    (∀ i ∈ slots, goodSlot s i) → cloneSlotsStep s slots = (s, slots) := by
  intro slots
  induction slots with
  | nil => intro s _; rfl
  | cons slot rest ih =>
    intro s h
    have h1 : cloneSlotStep s slot = (s, slot) :=
      cloneSlotStep_of_good (h slot (List.mem_cons_self _ _))
    have h2 : cloneSlotsStep s rest = (s, rest) :=
      ih s fun i hi => h i (List.mem_cons_of_mem _ hi)
    show ((cloneSlotsStep (cloneSlotStep s slot).1 rest).1,
      (cloneSlotStep s slot).2 ::
        (cloneSlotsStep (cloneSlotStep s slot).1 rest).2) = (s, slot :: rest)
    rw [h1]
    simp [h2]

lemma cloneTraversal_spec : ∀ (meshes : List (List ℕ)) (s : CloneStore),
    storeWF s →
    storeGrows s (cloneTraversal s meshes).1 ∧
    storeWF (cloneTraversal s meshes).1 ∧
    ∀ mesh ∈ (cloneTraversal s meshes).2, ∀ i ∈ mesh,
      goodSlot (cloneTraversal s meshes).1 i := by
  intro meshes
  induction meshes with
  | nil =>
    intro s hwf
    exact ⟨storeGrows_refl s, hwf, by simp [cloneTraversal]⟩
  | cons mesh rest ih =>
    intro s hwf
    obtain ⟨hg1, hwf1, hgood1⟩ := cloneSlotsStep_spec mesh s hwf
    obtain ⟨hg2, hwf2, hgood2⟩ := ih (cloneSlotsStep s mesh).1 hwf1
    refine ⟨storeGrows_trans hg1 hg2, hwf2, ?_⟩
    intro ms hms i hi
    rw [show (cloneTraversal s (mesh :: rest)).2 =
      (cloneSlotsStep s mesh).2 ::
        (cloneTraversal (cloneSlotsStep s mesh).1 rest).2 from rfl] at hms
    rcases List.mem_cons.1 hms with h | h
    · subst h
      exact goodSlot_mono hg2 (hgood1 i hi)
    · exact hgood2 ms h i hi

lemma cloneTraversal_of_good : ∀ (meshes : List (List ℕ)) (s : CloneStore),
    (∀ mesh ∈ meshes, ∀ i ∈ mesh, goodSlot s i) →
    cloneTraversal s meshes = (s, meshes) := by
  intro meshes
  induction meshes with
  | nil => intro s _; rfl
  | cons mesh rest ih =>
    intro s h
    have h1 : cloneSlotsStep s mesh = (s, mesh) :=
      cloneSlotsStep_of_good mesh s (h mesh (List.mem_cons_self _ _))
    have h2 : cloneTraversal s rest = (s, rest) :=
      ih s fun ms hms => h ms (List.mem_cons_of_mem _ hms)
    show ((cloneTraversal (cloneSlotsStep s mesh).1 rest).1,
      (cloneSlotsStep s mesh).2 ::
        (cloneTraversal (cloneSlotsStep s mesh).1 rest).2) =
      (s, mesh :: rest)
    rw [h1]
    simp [h2]

/-- C4 counterexample: two meshes share the single original material
(identity 0, matching name, not yet cloned).  One traversal installs TWO
DISTINCT clones — identity 1 in the first mesh's slot and identity 2 in
the second's — because the `_clonedForLogo` flag is written only onto each
fresh clone's own `userData`, never onto the shared original, so the
second mesh still sees the original as uncloned.  This contradicts "at
most one clone is ever created" and "the identical clone instance is
installed" for a shared original material. -/
theorem exclusiveClone_shared_material_counterexample :
    cloneTraversal ⟨[⟨0, true, false⟩], 1⟩ [[0], [0]] =
      (⟨[⟨0, true, false⟩, ⟨1, true, true⟩, ⟨2, true, true⟩], 3⟩,
        [[1], [2]]) ∧
    ((1 : ℕ) ≠ 2) := by
  constructor
  · decide
  · decide

/-- C4 amended: per mesh slot the copy-on-write step is idempotent — a
second invocation of the traversal (the `ensureExclusive`-style pass) on
the resulting model changes nothing: no further clone is created and every
slot keeps the identical installed material.  However, distinct mesh slots
sharing one original material receive distinct clones (one clone per slot,
not one per original material) — see the counterexample. -/
theorem cloneTraversal_idempotent (s : CloneStore) (meshes : List (List ℕ))
    (hwf : storeWF s) :
    cloneTraversal (cloneTraversal s meshes).1 (cloneTraversal s meshes).2 =
      ((cloneTraversal s meshes).1, (cloneTraversal s meshes).2) := by
  obtain ⟨_, hwf2, hgood⟩ := cloneTraversal_spec meshes s hwf
  exact cloneTraversal_of_good _ _ hgood

/-- Witness for the amended C4 theorem: at the concrete two-mesh world of
the counterexample (which is well-formed), a second traversal leaves the
store and the installed slots unchanged. -/
theorem cloneTraversal_idempotent_witness :
    (∀ m ∈ (⟨[⟨0, true, false⟩], 1⟩ : CloneStore).mats, m.id <
      (⟨[⟨0, true, false⟩], 1⟩ : CloneStore).nextId) ∧
    cloneTraversal (cloneTraversal ⟨[⟨0, true, false⟩], 1⟩ [[0], [0]]).1
        (cloneTraversal ⟨[⟨0, true, false⟩], 1⟩ [[0], [0]]).2 =
      ((cloneTraversal ⟨[⟨0, true, false⟩], 1⟩ [[0], [0]]).1,
        (cloneTraversal ⟨[⟨0, true, false⟩], 1⟩ [[0], [0]]).2) :=
  ⟨by decide,
   cloneTraversal_idempotent ⟨[⟨0, true, false⟩], 1⟩ [[0], [0]]
     (by unfold storeWF; decide)⟩

/-- The one-time emissive snapshot stored in
`mat.userData._origEmissiveSnap` (materials_logo.js lines 345-351):
whether the material had an `emissive` color, its hex value (`null` when
absent), the numeric `emissiveIntensity` (`null` when not a number) and
the `emissiveMap` reference (`null` when the property is absent). -/
structure EmissiveSnap where
  hasEmissive : Bool
  emissiveHex : Option ℕ
  emissiveIntensity : Option ℚ
  emissiveMap : Option ℕ
deriving DecidableEq

/-- The material installed at the processed slot.  `matId` is object
identity; `clonedForLogo` is the `userData._clonedForLogo` marker;
`map` / `emissiveMap` are texture references; the `has*` flags embed the
JavaScript property-presence probes (`'emissive' in mat` together with the
truthiness/`typeof` checks). -/
structure LogoMaterial where
  matId : ℕ
  clonedForLogo : Bool
  map : Option ℕ
  hasEmissiveMap : Bool
  emissiveMap : Option ℕ
  hasEmissive : Bool
  emissiveHex : ℕ
  hasEmissiveIntensity : Bool
  emissiveIntensity : ℚ
  emissiveSnap : Option EmissiveSnap
deriving DecidableEq

/-- Capture the emissive snapshot of a material (materials_logo.js lines
346-351). -/
def snapOfMaterial (m : LogoMaterial) : EmissiveSnap :=
  { hasEmissive := m.hasEmissive
    emissiveHex := if m.hasEmissive then some m.emissiveHex else none
    emissiveIntensity :=
      if m.hasEmissiveIntensity then some m.emissiveIntensity else none
    emissiveMap := if m.hasEmissiveMap then m.emissiveMap else none }

/-- Zero out the emissive state (materials_logo.js lines 353-355):
`emissiveMap = null`, `emissive.set(0x000000)`, `emissiveIntensity = 0`,
each guarded by property presence. -/
def zeroEmissive (m : LogoMaterial) : LogoMaterial :=
  { m with
    emissiveMap := if m.hasEmissiveMap then none else m.emissiveMap
    emissiveHex := if m.hasEmissive then 0 else m.emissiveHex
    emissiveIntensity :=
      if m.hasEmissiveIntensity then 0 else m.emissiveIntensity }

/-- The mutable state around one matching material slot during
`replaceMaterial003BaseMap` / `restoreMaterial003BaseMap`: the installed
material, the fresh-identity counters for materials and textures, the
`image` field of every texture (`texImage`), and the two module-level side
tables `material003OriginalMaps` (keyed by material identity) and
`material003OriginalImages` (keyed by texture identity). -/
structure SlotState where
  mat : LogoMaterial
  nextMat : ℕ
  texImage : ℕ → ℕ
  nextTex : ℕ
  origMaps : List (ℕ × Option ℕ)
  origImages : List (ℕ × ℕ)

/-- `Map.get` on an association table (`Map.has` is `(findTab …).isSome`). -/
def findTab {β : Type} (l : List (ℕ × β)) (k : ℕ) : Option β :=
  (l.find? (fun q => q.1 == k)).map Prod.snd

/-- Which branch of `replaceMaterial003BaseMap` installs the new base map:
the dedicated tiny-island canvas texture (lines 378-441), the direct
composite into the original texture's image (lines 443-444), or the
fallback square canvas (lines 449-457) used when the UV-aware path is
unavailable or throws.  The branch taken is decided by the geometry and
texture inputs (see `tinyIslandSelect`); the state machine is quantified
over it. -/
inductive ApplyPath
  | tiny
  | direct
  | fallback
deriving DecidableEq

/-- The material-preparation prefix of the per-slot body of
`replaceMaterial003BaseMap` (materials_logo.js lines 333-358, before the
path split): copy-on-write clone when the `_clonedForLogo` flag is absent,
one-time emissive snapshot, and zeroing of the emissive state.  Returns
the prepared installed material and the next fresh material identity. -/
def cloneAndPrepMaterial (s : SlotState) : LogoMaterial × ℕ :=
  let cm :=
    if !s.mat.clonedForLogo then
      ({ s.mat with matId := s.nextMat, clonedForLogo := true },
        s.nextMat + 1)
    else (s.mat, s.nextMat)
  let m1 :=
    if cm.1.emissiveSnap = none then
      { cm.1 with emissiveSnap := some (snapOfMaterial cm.1) }
    else cm.1
  (zeroEmissive m1, cm.2)

/-- One application of the decal to the slot (`replaceMaterial003BaseMap`
per-slot body, materials_logo.js lines 333-461) with the compositing
abstracted to the produced image `composedImg` and the branch decision to
`p`: prepare the material, record the current base map in
`material003OriginalMaps` once per material identity, then install the new
map — a fresh dedicated texture (tiny path), the original texture with its
`image` replaced after recording it once in `material003OriginalImages`
(direct path, only possible when a base map exists), or a fresh fallback
texture. -/
def applySlot (p : ApplyPath) (composedImg : ℕ) (s : SlotState) :
    SlotState :=
  let pm := cloneAndPrepMaterial s
  let m2 := pm.1
  let original := m2.map
  let origMaps :=
    if findTab s.origMaps m2.matId = none then
      (m2.matId, original) :: s.origMaps
    else s.origMaps
  match p, original with
  | ApplyPath.tiny, some _ =>
    { mat := { m2 with map := some s.nextTex }, nextMat := pm.2,
      texImage := fun t => if t = s.nextTex then composedImg else s.texImage t,
      nextTex := s.nextTex + 1, origMaps := origMaps,
      origImages := s.origImages }
  | ApplyPath.direct, some t =>
    { mat := { m2 with map := some t }, nextMat := pm.2,
      texImage := fun u => if u = t then composedImg else s.texImage u,
      nextTex := s.nextTex, origMaps := origMaps,
      origImages :=
        if findTab s.origImages t = none then
          (t, s.texImage t) :: s.origImages
        else s.origImages }
  | _, _ =>
    { mat := { m2 with map := some s.nextTex }, nextMat := pm.2,
      texImage := fun t => if t = s.nextTex then composedImg else s.texImage t,
      nextTex := s.nextTex + 1, origMaps := origMaps,
      origImages := s.origImages }

/-- `restoreMaterial003BaseMap` for the slot (materials_logo.js lines
465-497): restore the recorded base map reference, then the recorded
texture image of the (restored) map, then the emissive snapshot; the
second traversal clears the `_clonedForLogo` flags and finally both side
tables are cleared. -/
def restoreSlot (s : SlotState) : SlotState :=
  let m :=
    match findTab s.origMaps s.mat.matId with
    | some orig => { s.mat with map := orig }
    | none => s.mat
  let texImage :=
    match m.map with
    | some t =>
      match findTab s.origImages t with
      | some img => fun u => if u = t then img else s.texImage u
      | none => s.texImage
    | none => s.texImage
  let m2 :=
    match m.emissiveSnap with
    | some sn =>
      { m with
        emissiveMap :=
          if m.hasEmissiveMap then sn.emissiveMap else m.emissiveMap
        emissiveHex :=
          if m.hasEmissive then
            (match sn.emissiveHex with
             | some hx => hx
             | none => m.emissiveHex)
          else m.emissiveHex
        emissiveIntensity :=
          match sn.emissiveIntensity with
          | some iv =>
            if m.hasEmissiveIntensity then iv else m.emissiveIntensity
          | none => m.emissiveIntensity
        emissiveSnap := none }
    | none => m
  { mat := { m2 with clonedForLogo := false },
    nextMat := s.nextMat, texImage := texImage, nextTex := s.nextTex,
    origMaps := [], origImages := [] }

/-- Apply a sequence of decal applications to the slot. -/
def applyMany (ps : List (ApplyPath × ℕ)) (s : SlotState) : SlotState :=
  ps.foldl (fun s pc => applySlot pc.1 pc.2 s) s

/-- The emissive snapshot that the first application captures: the
pre-existing one when the material already carries a snapshot, otherwise a
fresh capture of the material's current emissive state. -/
def firstSnap (m : LogoMaterial) : EmissiveSnap :=
  match m.emissiveSnap with
  | some sn => sn
  | none => snapOfMaterial m

/-- Invariant tying every state reachable by at least one application to
the initial state of the slot. -/
def SlotInv (s₀ s : SlotState) : Prop :=
  findTab s.origMaps s.mat.matId = some s₀.mat.map ∧
  (∀ t, s₀.mat.map = some t →
    (findTab s.origImages t = none ∧ s.texImage t = s₀.texImage t) ∨
    findTab s.origImages t = some (s₀.texImage t)) ∧
  (∀ t, s₀.mat.map = some t → t < s.nextTex) ∧
  s.mat.clonedForLogo = true ∧
  s.mat.emissiveSnap = some (firstSnap s₀.mat) ∧
  s.mat.hasEmissiveMap = s₀.mat.hasEmissiveMap ∧
  s.mat.hasEmissive = s₀.mat.hasEmissive ∧
  s.mat.hasEmissiveIntensity = s₀.mat.hasEmissiveIntensity ∧
  (s₀.mat.hasEmissiveMap = true → s.mat.emissiveMap = none) ∧
  (s₀.mat.hasEmissive = true → s.mat.emissiveHex = 0) ∧
  (s₀.mat.hasEmissiveIntensity = true → s.mat.emissiveIntensity = 0)

lemma findTab_cons_self {β : Type} (k : ℕ) (v : β) (l : List (ℕ × β)) :
    findTab ((k, v) :: l) k = some v := by
  simp [findTab]

lemma findTab_cons_ne {β : Type} {k k' : ℕ} (v : β) (l : List (ℕ × β))
    (h : k' ≠ k) : findTab ((k', v) :: l) k = findTab l k := by
  simp [findTab, List.find?_cons_of_neg, h]

lemma firstSnap_of_snap_some {m : LogoMaterial} {sn : EmissiveSnap}
    (h : m.emissiveSnap = some sn) : firstSnap m = sn := by
  rw [firstSnap, h]

lemma cloneAndPrepMaterial_spec (s : SlotState) :
    (cloneAndPrepMaterial s).1.map = s.mat.map ∧
    (cloneAndPrepMaterial s).1.clonedForLogo = true ∧
    (s.mat.clonedForLogo = true →
      (cloneAndPrepMaterial s).1.matId = s.mat.matId) ∧
    (cloneAndPrepMaterial s).1.emissiveSnap = some (firstSnap s.mat) ∧
    (cloneAndPrepMaterial s).1.hasEmissiveMap = s.mat.hasEmissiveMap ∧
    (cloneAndPrepMaterial s).1.hasEmissive = s.mat.hasEmissive ∧
    (cloneAndPrepMaterial s).1.hasEmissiveIntensity =
      s.mat.hasEmissiveIntensity ∧
    (cloneAndPrepMaterial s).1.emissiveMap =
      (if s.mat.hasEmissiveMap then none else s.mat.emissiveMap) ∧
    (cloneAndPrepMaterial s).1.emissiveHex =
      (if s.mat.hasEmissive then 0 else s.mat.emissiveHex) ∧
    (cloneAndPrepMaterial s).1.emissiveIntensity =
      (if s.mat.hasEmissiveIntensity then 0 else s.mat.emissiveIntensity) := by
  cases hf : s.mat.clonedForLogo <;> cases hs : s.mat.emissiveSnap <;>
    simp [cloneAndPrepMaterial, zeroEmissive, firstSnap, snapOfMaterial,
      hf, hs]

lemma applySlot_mat_matId (p : ApplyPath) (c : ℕ) (s : SlotState) :
    (applySlot p c s).mat.matId = (cloneAndPrepMaterial s).1.matId := by
  cases p <;> cases hmap : (cloneAndPrepMaterial s).1.map <;>
    simp [applySlot, hmap]

lemma applySlot_mat_clonedForLogo (p : ApplyPath) (c : ℕ) (s : SlotState) :
    (applySlot p c s).mat.clonedForLogo =
      (cloneAndPrepMaterial s).1.clonedForLogo := by
  cases p <;> cases hmap : (cloneAndPrepMaterial s).1.map <;>
    simp [applySlot, hmap]

lemma applySlot_mat_emissiveSnap (p : ApplyPath) (c : ℕ) (s : SlotState) :
    (applySlot p c s).mat.emissiveSnap =
      (cloneAndPrepMaterial s).1.emissiveSnap := by
  cases p <;> cases hmap : (cloneAndPrepMaterial s).1.map <;>
    simp [applySlot, hmap]

lemma applySlot_mat_emissiveMap (p : ApplyPath) (c : ℕ) (s : SlotState) :
    (applySlot p c s).mat.emissiveMap =
      (cloneAndPrepMaterial s).1.emissiveMap := by
  cases p <;> cases hmap : (cloneAndPrepMaterial s).1.map <;>
    simp [applySlot, hmap]

lemma applySlot_mat_emissiveHex (p : ApplyPath) (c : ℕ) (s : SlotState) :
    (applySlot p c s).mat.emissiveHex =
      (cloneAndPrepMaterial s).1.emissiveHex := by
  cases p <;> cases hmap : (cloneAndPrepMaterial s).1.map <;>
    simp [applySlot, hmap]

lemma applySlot_mat_emissiveIntensity (p : ApplyPath) (c : ℕ) (s : SlotState) :
    (applySlot p c s).mat.emissiveIntensity =
      (cloneAndPrepMaterial s).1.emissiveIntensity := by
  cases p <;> cases hmap : (cloneAndPrepMaterial s).1.map <;>
    simp [applySlot, hmap]

lemma applySlot_mat_hasEmissiveMap (p : ApplyPath) (c : ℕ) (s : SlotState) :
    (applySlot p c s).mat.hasEmissiveMap =
      (cloneAndPrepMaterial s).1.hasEmissiveMap := by
  cases p <;> cases hmap : (cloneAndPrepMaterial s).1.map <;>
    simp [applySlot, hmap]

lemma applySlot_mat_hasEmissive (p : ApplyPath) (c : ℕ) (s : SlotState) :
    (applySlot p c s).mat.hasEmissive =
      (cloneAndPrepMaterial s).1.hasEmissive := by
  cases p <;> cases hmap : (cloneAndPrepMaterial s).1.map <;>
    simp [applySlot, hmap]

lemma applySlot_mat_hasEmissiveIntensity (p : ApplyPath) (c : ℕ)
    (s : SlotState) :
    (applySlot p c s).mat.hasEmissiveIntensity =
      (cloneAndPrepMaterial s).1.hasEmissiveIntensity := by
  cases p <;> cases hmap : (cloneAndPrepMaterial s).1.map <;>
    simp [applySlot, hmap]

lemma SlotInv_applySlot {s₀ s : SlotState} (h : SlotInv s₀ s) (p : ApplyPath)
    (c : ℕ) : SlotInv s₀ (applySlot p c s) := by
  obtain ⟨h1, h2, h3, h4, h5, h6, h7, h8, _, _, _⟩ := h
  obtain ⟨hpmap, hpflag, hpid, hpsnap, hpM, hpE, hpI, hpzM, hpzE, hpzI⟩ :=
    cloneAndPrepMaterial_spec s
  have hid := hpid h4
  have htabne : ¬(findTab s.origMaps (cloneAndPrepMaterial s).1.matId =
      none) := by
    rw [hid, h1]
    simp
  have hsnapstab : firstSnap s.mat = firstSnap s₀.mat := by
    rw [firstSnap, h5]
  refine ⟨?_, ?_, ?_, ?_, ?_, ?_, ?_, ?_, ?_, ?_, ?_⟩
  · rw [applySlot_mat_matId, hid]
    cases p <;> cases hmap : (cloneAndPrepMaterial s).1.map <;>
      (simp only [applySlot, hmap]; rw [if_neg htabne]; exact h1)
  · intro t ht
    have htne : t ≠ s.nextTex := fun he => absurd (h3 t ht) (by omega)
    have hcommon :
        (findTab s.origImages t = none ∧
          (if t = s.nextTex then c else s.texImage t) = s₀.texImage t) ∨
        findTab s.origImages t = some (s₀.texImage t) := by
      rcases h2 t ht with ⟨hn, he⟩ | hsome
      · exact Or.inl ⟨hn, by rw [if_neg htne]; exact he⟩
      · exact Or.inr hsome
    cases p with
    | tiny =>
      cases hmap : (cloneAndPrepMaterial s).1.map with
      | none => simpa only [applySlot, hmap] using hcommon
      | some t0 => simpa only [applySlot, hmap] using hcommon
    | fallback =>
      cases hmap : (cloneAndPrepMaterial s).1.map with
      | none => simpa only [applySlot, hmap] using hcommon
      | some t0 => simpa only [applySlot, hmap] using hcommon
    | direct =>
      cases hmap : (cloneAndPrepMaterial s).1.map with
      | none => simpa only [applySlot, hmap] using hcommon
      | some t0 =>
        simp only [applySlot, hmap]
        by_cases htt : t = t0
        · subst htt
          rcases h2 t ht with ⟨hn, he⟩ | hsome
          · rw [if_pos hn, findTab_cons_self, he]
            exact Or.inr rfl
          · rw [if_neg (by rw [hsome]; simp)]
            exact Or.inr hsome
        · rcases h2 t ht with ⟨hn, he⟩ | hsome
          · refine Or.inl ⟨?_, ?_⟩
            · by_cases hins : findTab s.origImages t0 = none
              · rw [if_pos hins, findTab_cons_ne _ _ (Ne.symm htt)]
                exact hn
              · rw [if_neg hins]
                exact hn
            · rw [if_neg htt]
              exact he
          · refine Or.inr ?_
            by_cases hins : findTab s.origImages t0 = none
            · rw [if_pos hins, findTab_cons_ne _ _ (Ne.symm htt)]
              exact hsome
            · rw [if_neg hins]
              exact hsome
  · intro t ht
    have := h3 t ht
    cases p <;> cases hmap : (cloneAndPrepMaterial s).1.map <;>
      (simp only [applySlot, hmap]; omega)
  · rw [applySlot_mat_clonedForLogo]
    exact hpflag
  · rw [applySlot_mat_emissiveSnap, hpsnap, hsnapstab]
  · rw [applySlot_mat_hasEmissiveMap, hpM]
    exact h6
  · rw [applySlot_mat_hasEmissive, hpE]
    exact h7
  · rw [applySlot_mat_hasEmissiveIntensity, hpI]
    exact h8
  · intro hz
    rw [applySlot_mat_emissiveMap, hpzM, h6, hz]
    simp
  · intro hz
    rw [applySlot_mat_emissiveHex, hpzE, h7, hz]
    simp
  · intro hz
    rw [applySlot_mat_emissiveIntensity, hpzI, h8, hz]
    simp

lemma SlotInv_applySlot_init (s₀ : SlotState) (hM : s₀.origMaps = [])
    (hI : s₀.origImages = [])
    (hf : ∀ t, s₀.mat.map = some t → t < s₀.nextTex) (p : ApplyPath)
    (c : ℕ) : SlotInv s₀ (applySlot p c s₀) := by
  obtain ⟨hpmap, hpflag, hpid, hpsnap, hpM, hpE, hpI2, hpzM, hpzE, hpzI⟩ :=
    cloneAndPrepMaterial_spec s₀
  have htabnone : findTab s₀.origMaps (cloneAndPrepMaterial s₀).1.matId =
      none := by
    rw [hM]
    rfl
  refine ⟨?_, ?_, ?_, ?_, ?_, ?_, ?_, ?_, ?_, ?_, ?_⟩
  · rw [applySlot_mat_matId]
    cases p <;> cases hmap : (cloneAndPrepMaterial s₀).1.map <;>
      (simp only [applySlot, hmap]
       rw [if_pos htabnone, findTab_cons_self, ← hmap, hpmap])
  · intro t ht
    have ht0 := hf t ht
    have htne : t ≠ s₀.nextTex := by omega
    have hcommon :
        (findTab s₀.origImages t = none ∧
          (if t = s₀.nextTex then c else s₀.texImage t) = s₀.texImage t) ∨
        findTab s₀.origImages t = some (s₀.texImage t) := by
      refine Or.inl ⟨?_, by rw [if_neg htne]⟩
      rw [hI]
      rfl
    cases p with
    | tiny =>
      cases hmap : (cloneAndPrepMaterial s₀).1.map with
      | none => simpa only [applySlot, hmap] using hcommon
      | some t0 => simpa only [applySlot, hmap] using hcommon
    | fallback =>
      cases hmap : (cloneAndPrepMaterial s₀).1.map with
      | none => simpa only [applySlot, hmap] using hcommon
      | some t0 => simpa only [applySlot, hmap] using hcommon
    | direct =>
      cases hmap : (cloneAndPrepMaterial s₀).1.map with
      | none => simpa only [applySlot, hmap] using hcommon
      | some t0 =>
        have hm0 : s₀.mat.map = some t0 := by rw [← hpmap, hmap]
        have htt0 : t = t0 := by
          rw [hm0] at ht
          injection ht with hv
          exact hv.symm
        subst htt0
        simp only [applySlot, hmap]
        rw [if_pos (by rw [hI]; rfl), findTab_cons_self]
        exact Or.inr rfl
  · intro t ht
    have := hf t ht
    cases p <;> cases hmap : (cloneAndPrepMaterial s₀).1.map <;>
      (simp only [applySlot, hmap]; omega)
  · rw [applySlot_mat_clonedForLogo]
    exact hpflag
  · rw [applySlot_mat_emissiveSnap, hpsnap]
  · rw [applySlot_mat_hasEmissiveMap, hpM]
  · rw [applySlot_mat_hasEmissive, hpE]
  · rw [applySlot_mat_hasEmissiveIntensity, hpI2]
  · intro hz
    rw [applySlot_mat_emissiveMap, hpzM, hz]
    simp
  · intro hz
    rw [applySlot_mat_emissiveHex, hpzE, hz]
    simp
  · intro hz
    rw [applySlot_mat_emissiveIntensity, hpzI, hz]
    simp

lemma findTab_nil {β : Type} (k : ℕ) : findTab ([] : List (ℕ × β)) k = none :=
  rfl

lemma restoreSlot_of_inv {s₀ s : SlotState} (h : SlotInv s₀ s) :
    (restoreSlot s).mat.map = s₀.mat.map ∧
    (∀ t, s₀.mat.map = some t →
      (restoreSlot s).texImage t = s₀.texImage t) ∧
    (s₀.mat.emissiveSnap = none →
      (s₀.mat.hasEmissiveMap = true →
        (restoreSlot s).mat.emissiveMap = s₀.mat.emissiveMap) ∧
      (s₀.mat.hasEmissive = true →
        (restoreSlot s).mat.emissiveHex = s₀.mat.emissiveHex) ∧
      (s₀.mat.hasEmissiveIntensity = true →
        (restoreSlot s).mat.emissiveIntensity = s₀.mat.emissiveIntensity)) := by
  obtain ⟨h1, h2, h3, h4, h5, h6, h7, h8, _, _, _⟩ := h
  refine ⟨?_, ?_, ?_⟩
  · simp only [restoreSlot, h1, h5]
  · intro t ht
    rcases h2 t ht with ⟨hn, he⟩ | hsome
    · simp only [restoreSlot, h1, h5, ht, hn]
      exact he
    · simp only [restoreSlot, h1, h5, ht, hsome]
      simp
  · intro hs0
    have hfs : firstSnap s₀.mat = snapOfMaterial s₀.mat := by
      rw [firstSnap, hs0]
    refine ⟨fun hHM => ?_, fun hHE => ?_, fun hHI => ?_⟩
    · simp only [restoreSlot, h1, h5, hfs, snapOfMaterial]
      simp [h6, hHM]
    · simp only [restoreSlot, h1, h5, hfs, snapOfMaterial]
      simp [h7, hHE]
    · simp only [restoreSlot, h1, h5, hfs, snapOfMaterial]
      simp [h8, hHI]

lemma SlotInv_applyMany {s₀ s : SlotState} (h : SlotInv s₀ s)
    (ps : List (ApplyPath × ℕ)) :
    SlotInv s₀ (ps.foldl (fun s pc => applySlot pc.1 pc.2 s) s) := by
  induction ps generalizing s with
  | nil => exact h
  | cons pc rest ih => exact ih (SlotInv_applySlot h pc.1 pc.2)

/-- C1: Round-trip law.  For a matching material slot in the pristine
module state (both side tables empty, texture identities well-formed), any
sequence of decal applications — through any mix of the tiny-island,
direct-composite and fallback branches, with any composited images —
followed by one restore puts back both the material's base-color map
reference and that map's texture image exactly as they were before the
first application. -/
theorem applyDecal_restoreOriginal_roundTrip (s₀ : SlotState)
    (ps : List (ApplyPath × ℕ)) (hM : s₀.origMaps = [])
    (hI : s₀.origImages = [])
    (hf : ∀ t, s₀.mat.map = some t → t < s₀.nextTex) :
    (restoreSlot (applyMany ps s₀)).mat.map = s₀.mat.map ∧
    ∀ t, s₀.mat.map = some t →
      (restoreSlot (applyMany ps s₀)).texImage t = s₀.texImage t := by
  cases ps with
  | nil =>
    constructor
    · show (restoreSlot s₀).mat.map = s₀.mat.map
      cases hs : s₀.mat.emissiveSnap <;>
        simp only [restoreSlot, hM, findTab_nil, hs]
    · intro t ht
      show (restoreSlot s₀).texImage t = s₀.texImage t
      simp only [restoreSlot, hM, hI, findTab_nil, ht]
  | cons pc rest =>
    have hInv := SlotInv_applyMany
      (SlotInv_applySlot_init s₀ hM hI hf pc.1 pc.2) rest
    have hres := restoreSlot_of_inv hInv
    exact ⟨hres.1, hres.2.1⟩

/-- The concrete material used by the slot-state witnesses: identity 0,
not yet cloned, base map texture 5, emissive map texture 9, emissive hex
0xff0000, emissive intensity 2, no snapshot. -/
def matW : LogoMaterial :=
  ⟨0, false, some 5, true, some 9, true, 16711680, true, 2, none⟩

/-- The concrete pristine slot state used by the witnesses: texture `t`
currently holds image `100 + t`; both side tables are empty. -/
def slotW : SlotState :=
  { mat := matW, nextMat := 1, texImage := fun t => 100 + t, nextTex := 6,
    origMaps := [], origImages := [] }

/-- Witness for C1: a direct application followed by a tiny-island
application and one restore brings `slotW`'s map reference and texture-5
image back to their initial values. -/
theorem applyDecal_restoreOriginal_roundTrip_witness :
    slotW.origMaps = [] ∧ slotW.origImages = [] ∧
    (restoreSlot (applyMany [(ApplyPath.direct, 42), (ApplyPath.tiny, 43)]
      slotW)).mat.map = slotW.mat.map ∧
    (restoreSlot (applyMany [(ApplyPath.direct, 42), (ApplyPath.tiny, 43)]
      slotW)).texImage 5 = slotW.texImage 5 :=
  have h := applyDecal_restoreOriginal_roundTrip slotW
    [(ApplyPath.direct, 42), (ApplyPath.tiny, 43)] rfl rfl
    (fun t ht => by
      injection ht with hv
      subst hv
      decide)
  ⟨rfl, rfl, h.1, h.2 5 rfl⟩

/-- C9: every successful decal application zeroes the emissive state of
the matching material — `emissiveMap` to `null`, `emissive` to black,
`emissiveIntensity` to 0 — after a one-time snapshot of the prior emissive
state (still the first capture even after repeated applications), and a
subsequent restore reinstates the captured emissive map, color and
intensity. -/
theorem applyDecal_emissive_neutralize_restore (s₀ : SlotState)
    (p0 : ApplyPath) (c0 : ℕ) (ps : List (ApplyPath × ℕ))
    (hM : s₀.origMaps = []) (hI : s₀.origImages = [])
    (hf : ∀ t, s₀.mat.map = some t → t < s₀.nextTex)
    (hsnap : s₀.mat.emissiveSnap = none)
    (hHM : s₀.mat.hasEmissiveMap = true)
    (hHE : s₀.mat.hasEmissive = true)
    (hHI : s₀.mat.hasEmissiveIntensity = true) :
    (applyMany ((p0, c0) :: ps) s₀).mat.emissiveMap = none ∧
    (applyMany ((p0, c0) :: ps) s₀).mat.emissiveHex = 0 ∧
    (applyMany ((p0, c0) :: ps) s₀).mat.emissiveIntensity = 0 ∧
    (applyMany ((p0, c0) :: ps) s₀).mat.emissiveSnap =
      some (snapOfMaterial s₀.mat) ∧
    (restoreSlot (applyMany ((p0, c0) :: ps) s₀)).mat.emissiveMap =
      s₀.mat.emissiveMap ∧
    (restoreSlot (applyMany ((p0, c0) :: ps) s₀)).mat.emissiveHex =
      s₀.mat.emissiveHex ∧
    (restoreSlot (applyMany ((p0, c0) :: ps) s₀)).mat.emissiveIntensity =
      s₀.mat.emissiveIntensity := by
  have hInv : SlotInv s₀ (applyMany ((p0, c0) :: ps) s₀) :=
    SlotInv_applyMany (SlotInv_applySlot_init s₀ hM hI hf p0 c0) ps
  have hres := restoreSlot_of_inv hInv
  obtain ⟨_, _, _, _, h5, _, _, _, h9, h10, h11⟩ := hInv
  have hfs : firstSnap s₀.mat = snapOfMaterial s₀.mat := by
    rw [firstSnap, hsnap]
  refine ⟨h9 hHM, h10 hHE, h11 hHI, ?_, (hres.2.2 hsnap).1 hHM,
    (hres.2.2 hsnap).2.1 hHE, (hres.2.2 hsnap).2.2 hHI⟩
  rw [h5, hfs]

/-- Witness for C9: one fallback application on `slotW` zeroes the
emissive state after snapshotting it, and restore reinstates emissive map
9, color 0xff0000 and intensity 2. -/
theorem applyDecal_emissive_neutralize_restore_witness :
    slotW.mat.emissiveSnap = none ∧
    (applyMany [(ApplyPath.fallback, 7)] slotW).mat.emissiveMap = none ∧
    (applyMany [(ApplyPath.fallback, 7)] slotW).mat.emissiveHex = 0 ∧
    (applyMany [(ApplyPath.fallback, 7)] slotW).mat.emissiveIntensity = 0 ∧
    (restoreSlot (applyMany [(ApplyPath.fallback, 7)] slotW)).mat.emissiveMap
      = slotW.mat.emissiveMap ∧
    (restoreSlot (applyMany [(ApplyPath.fallback, 7)] slotW)).mat.emissiveHex
      = slotW.mat.emissiveHex ∧
    (restoreSlot
      (applyMany [(ApplyPath.fallback, 7)] slotW)).mat.emissiveIntensity =
      slotW.mat.emissiveIntensity :=
  have h := applyDecal_emissive_neutralize_restore slotW ApplyPath.fallback 7
    [] rfl rfl
    (fun t ht => by
      injection ht with hv
      subst hv
      decide)
    rfl rfl rfl rfl
  ⟨rfl, h.1, h.2.1, h.2.2.1, h.2.2.2.2.1, h.2.2.2.2.2.1, h.2.2.2.2.2.2⟩
